import Mathlib

/-!
Shallow embedding of the fine-grained reactivity engine of
`src/dist/reactive.js` (signals, effects, computed values, `$state`
proxy objects), together with proofs of the specification claims.

The JavaScript module keeps its bookkeeping in module-level mutable
structures (`EFFECT_STACK`, `EFFECT_DEPS`, per-signal `__subs` sets,
per-`$state` `STATE_PROP_SIGNALS` maps).  The embedding gathers all of
that mutable state into one record `EngState` and renders every
operation of the source as a pure state-passing function.  JavaScript
`Set` objects are rendered as insertion-ordered duplicate-free lists
(`add` appends when absent, iteration follows insertion order, matching
JS `Set` semantics).  Observable actions (invoking a computation body,
invoking an external subscriber, invoking a cleanup, invoking a global
`$state` listener, a body pushing a value to a user list) are recorded
in an event trace, newest first.
-/

namespace Reactive

/-- A JavaScript runtime value, as far as the reactive core inspects
values: `typeof v === "function"` dispatch (`fn`), reference equality
`===` (structural equality here; distinct object references are modelled
by distinct `obj` ids), plus the primitives the scenarios use.
`closureV` stands for the helper closures the `$state` proxy hands out
for its reserved property names (`subscribe` / `inspect`); they are
opaque to the rest of the engine. -/
inductive JSVal where
  | undef
  | bool (b : Bool)
  | num (n : Int)
  | str (s : String)
  | fn (fid : Nat)
  | obj (oid : Nat)
  | closureV (tag : String)
deriving DecidableEq, Repr

/-- Key of a subscriber-carrying cell: either a plain signal created by
`createSignal` (the source uses the `get` closure itself as the key) or
the lazily created per-property signal of a `$state` object (the source
uses the `{__subs}` record stored in `STATE_PROP_SIGNALS`). -/
inductive SigKey where
  | plain (sid : Nat)
  | propSig (oid : Nat) (prop : String)
deriving DecidableEq, Repr

/-- An entry of a signal's `__subs` set: either the runner/recompute
closure of a computation (effect or computed), or an external listener
added through the signal's `subscribe`. -/
inductive Subscriber where
  | comp (cid : Nat)
  | ext (eid : Nat)
deriving DecidableEq, Repr

/-- One signal cell: its current `value` and its `__subs` set,
modelled as an insertion-ordered duplicate-free list. -/
structure Sig where
  value : JSVal := .undef
  subs : List Subscriber := []
deriving DecidableEq, Repr

/-- The body of a tracked computation (the `fn` argument of
`createEffect` / `createComputed`), as a small syntax of the operations
such a body may perform: finish with a result value, read a plain
signal through its `get`, read a property of a `$state` proxy, or push
a value to an observable user-level list (`seen.push(...)` in the
spec's scenarios).  Conditional control flow lives in the Lean-level
continuations. -/
inductive Body where
  | pure (v : JSVal)
  | read (sid : Nat) (k : JSVal → Body)
  | readProp (oid : Nat) (prop : String) (k : JSVal → Body)
  | emit (v : JSVal) (rest : Body)

/-- Whether a computation was made by `createEffect` or
`createComputed`; the two share the run cycle but store the body's
result differently. -/
inductive CompKind where
  | effect
  | computed
deriving DecidableEq, Repr

/-- A computation: the closure state of one `createEffect` /
`createComputed` call (`fn`, `cleanup`, and for computeds `cached` and
`dirty`). -/
structure Comp where
  body : Body
  kind : CompKind
  cleanup : Option Nat := none
  cached : JSVal := .undef
  dirty : Bool := true

/-- External listeners are opaque callbacks; the model only needs to
know whether a given listener returns normally or throws when
invoked. -/
inductive ExtBehavior where
  | ok
  | throws
deriving DecidableEq, Repr

/-- An observable action, recorded in the trace:
`run cid` — the body `fn` of computation `cid` is invoked;
`extCall eid` — external subscriber `eid` is invoked;
`cleanupCall f` — stored cleanup closure `f` is invoked;
`globalCall g k o n` — global `$state` listener `g` receives `(k,o,n)`;
`emitted v` — a body pushed `v` to its user-level list. -/
inductive Event where
  | run (cid : Nat)
  | extCall (eid : Nat)
  | cleanupCall (fid : Nat)
  | globalCall (eid : Nat) (key : String) (oldV newV : JSVal)
  | emitted (v : JSVal)
deriving DecidableEq, Repr

/-- The closure state of one `$state(initial)` call: the backing
record (`Object.assign({}, initial)`), the set of property names for
which a `PropertySignal` has been created (the keys of the
`STATE_PROP_SIGNALS` entry; the cells themselves live in
`EngState.sigs` under `SigKey.propSig`), and the `globalSubs` set. -/
structure StateObj where
  backing : List (String × JSVal) := []
  propSigs : List String := []
  globalSubs : List Nat := []
deriving DecidableEq, Repr

/-- The whole mutable state of the module: all signal cells, all
computation closures, the `EFFECT_DEPS` registry, the `EFFECT_STACK`
(head = top), all `$state` objects, the behavior of external listeners,
the environment giving meaning to function values used as updaters in
`set`, the event trace (newest first), and the queue of exceptions
re-thrown asynchronously via `setTimeout`. -/
structure EngState where
  sigs : SigKey → Sig
  nextSig : Nat
  comps : Nat → Option Comp
  nextComp : Nat
  deps : Nat → List SigKey
  stack : List Nat
  states : Nat → Option StateObj
  nextState : Nat
  exts : Nat → ExtBehavior
  fenv : Nat → JSVal → JSVal
  events : List Event
  deferred : List Nat

/-- Association-list read with JavaScript's `undefined` default
(`Reflect.get` on a plain record). -/
def alGet : List (String × JSVal) → String → JSVal
  | [], _ => .undef
  | (q, w) :: rest, p => if q = p then w else alGet rest p

/-- Association-list write (`target[prop] = value` on a plain
record). -/
def alSet : List (String × JSVal) → String → JSVal → List (String × JSVal)
  | [], p, v => [(p, v)]
  | (q, w) :: rest, p, v =>
      if q = p then (p, v) :: rest else (q, w) :: alSet rest p v

/-- JS `Set.add`: append when absent (sets iterate in insertion
order). -/
def addIfAbsent {A : Type} [DecidableEq A] (x : A) (l : List A) : List A :=
  if x ∈ l then l else l ++ [x]

/-- `_trackDependency(runner, signalKey)`: add `runner` to the signal's
`__subs` set (if absent) and record the signal in the runner's
`EFFECT_DEPS` entry. -/
def trackDependency (runner : Nat) (sigKey : SigKey) (st : EngState) : EngState :=
  let cell := st.sigs sigKey
  let cell2 := { cell with subs := addIfAbsent (Subscriber.comp runner) cell.subs }
  { st with sigs := Function.update st.sigs sigKey cell2,
            deps := Function.update st.deps runner (addIfAbsent sigKey (st.deps runner)) }

/-- The signal `get()` closure: if a computation is active (top of
`EFFECT_STACK`), register it as a dependent, then return the value.
Also returns the list of signal keys tracked by this read. -/
def getSignal (sid : Nat) (st : EngState) : JSVal × List SigKey × EngState :=
  match st.stack with
  | [] => ((st.sigs (SigKey.plain sid)).value, [], st)
  | active :: _ =>
      let st1 := trackDependency active (SigKey.plain sid) st
      ((st1.sigs (SigKey.plain sid)).value, [SigKey.plain sid], st1)

/-- `_ensurePropSignalFor(target, prop)`: fetch the `PropertySignal`
for `(target, prop)`, creating a fresh one (empty `__subs`) if the map
has no entry yet. -/
def ensurePropSig (oid : Nat) (prop : String) (st : EngState) : EngState :=
  match st.states oid with
  | none => st
  | some so =>
      if prop ∈ so.propSigs then st
      else
        let so2 := { so with propSigs := so.propSigs ++ [prop] }
        let cell : Sig := { value := .undef, subs := [] }
        { st with
            states := Function.update st.states oid (some so2),
            sigs := Function.update st.sigs (SigKey.propSig oid prop) cell }

/-- The `$state` proxy `get` trap: intercept the reserved names
`__isState`, `subscribe`, `inspect` before the backing record is
consulted; otherwise, if a computation is active, lazily create the
property's signal and track it, then return the backing value.  Also
returns the signal keys tracked by this read. -/
def backingOf (st : EngState) (oid : Nat) : List (String × JSVal) :=
  match st.states oid with
  | none => []
  | some so => so.backing

def stateGet (oid : Nat) (prop : String) (st : EngState) :
    JSVal × List SigKey × EngState :=
  match st.states oid with
  | none => (.undef, [], st)
  | some _ =>
      if prop = "__isState" then (.bool true, [], st)
      else if prop = "subscribe" then (.closureV "subscribe", [], st)
      else if prop = "inspect" then (.closureV "inspect", [], st)
      else
        match st.stack with
        | [] => (alGet (backingOf st oid) prop, [], st)
        | active :: _ =>
            let st1 := trackDependency active (SigKey.propSig oid prop)
              (ensurePropSig oid prop st)
            (alGet (backingOf st1 oid) prop, [SigKey.propSig oid prop], st1)

/-- Run a computation body, performing the tracking side effects of
every read; returns the body's result value and the list of signal
keys tracked during the run (in read order, possibly with repeats). -/
def interpBody : Body → EngState → JSVal × List SigKey × EngState
  | .pure v, st => (v, [], st)
  | .emit v rest, st =>
      interpBody rest { st with events := Event.emitted v :: st.events }
  | .read sid k, st =>
      let g := getSignal sid st
      let t := interpBody (k g.1) g.2.2
      (t.1, g.2.1 ++ t.2.1, t.2.2)
  | .readProp oid prop k, st =>
      let g := stateGet oid prop st
      let t := interpBody (k g.1) g.2.2
      (t.1, g.2.1 ++ t.2.1, t.2.2)

/-- The shared start of a run cycle and of disposal: remove the
computation from the `__subs` set of every signal recorded in its
`EFFECT_DEPS` entry, then delete the entry. -/
def removeSubStep (cid : Nat) (acc : EngState) (sk : SigKey) : EngState :=
  let cell := acc.sigs sk
  let cell2 := { cell with
    subs := cell.subs.filter (fun s => s ≠ Subscriber.comp cid) }
  { acc with sigs := Function.update acc.sigs sk cell2 }

def unsubscribeAll (cid : Nat) (st : EngState) : EngState :=
  let st1 := (st.deps cid).foldl (removeSubStep cid) st
  { st1 with deps := Function.update st1.deps cid [] }

/-- `if (typeof cleanup === "function") cleanup(); cleanup = null`
(exceptions from the cleanup are caught and reported). -/
def runCleanup (cid : Nat) (st : EngState) : EngState :=
  match st.comps cid with
  | none => st
  | some c =>
      match c.cleanup with
      | none => st
      | some f =>
          let c2 := { c with cleanup := none }
          { st with
              events := Event.cleanupCall f :: st.events,
              comps := Function.update st.comps cid (some c2) }

/-- One run cycle of a computation (the `runner` of an effect, the
`recompute` of a computed): unsubscribe stale dependencies, invoke the
pending cleanup, push onto `EFFECT_STACK`, invoke `fn` (tracking every
read), store the result (a function result becomes the new cleanup;
for a computed a non-function result is cached and the dirty flag
cleared), pop the stack. -/
def storeResult (cid : Nat) (r : JSVal) (st4 : EngState) : EngState :=
  match st4.comps cid with
  | none => st4
  | some c2 =>
      match c2.kind, r with
      | CompKind.effect, JSVal.fn f =>
          let c3 := { c2 with cleanup := some f }
          { st4 with comps := Function.update st4.comps cid (some c3) }
      | CompKind.effect, _ => st4
      | CompKind.computed, JSVal.fn f =>
          let c3 := { c2 with cleanup := some f, dirty := false }
          { st4 with comps := Function.update st4.comps cid (some c3) }
      | CompKind.computed, _ =>
          let c3 := { c2 with cached := r, dirty := false }
          { st4 with comps := Function.update st4.comps cid (some c3) }

def runCompAux (cid : Nat) (st : EngState) : List SigKey × EngState :=
  match st.comps cid with
  | none => ([], st)
  | some c =>
      let st1 := unsubscribeAll cid st
      let st2 := runCleanup cid st1
      let st3 := { st2 with stack := cid :: st2.stack,
                            events := Event.run cid :: st2.events }
      let t := interpBody c.body st3
      let st5 := storeResult cid t.1 t.2.2
      (t.2.1, { st5 with stack := st5.stack.tail })

/-- The runner/recompute closure of a computation: the run cycle,
discarding the instrumentation list of tracked reads. -/
def runComp (cid : Nat) (st : EngState) : EngState :=
  (runCompAux cid st).2

/-- Deliver a change notification to a snapshot of a `__subs` set
(`Array.from(subs).forEach`): a computation entry re-runs the
computation; an external entry invokes the listener, and an exception
it throws is caught and re-thrown asynchronously
(`setTimeout(() => { throw err })`), recorded in `deferred`. -/
def notifyStep (acc : EngState) (s : Subscriber) : EngState :=
  match s with
  | Subscriber.comp cid => runComp cid acc
  | Subscriber.ext eid =>
      let acc1 := { acc with events := Event.extCall eid :: acc.events }
      match acc.exts eid with
      | ExtBehavior.ok => acc1
      | ExtBehavior.throws => { acc1 with deferred := eid :: acc1.deferred }

def notifySubs (snapshot : List Subscriber) (st : EngState) : EngState :=
  snapshot.foldl notifyStep st

/-- `createSignal(initial)`: allocate a fresh signal cell; returns its
id (standing for the `[get, set, subscribe]` triple). -/
def createSignal (initial : JSVal) (st : EngState) : Nat × EngState :=
  let sid := st.nextSig
  let cell : Sig := { value := initial, subs := [] }
  (sid, { st with nextSig := sid + 1,
                  sigs := Function.update st.sigs (SigKey.plain sid) cell })

/-- The signal `set(newVal)` closure: a function argument is invoked
as an updater on the previous value, any other argument is the next
value itself; the next value is committed, and if it is `===` to the
previous one `set` returns early, otherwise a snapshot of the
subscriber set is notified.  Returns the new value. -/
def setSignal (sid : Nat) (arg : JSVal) (st : EngState) : JSVal × EngState :=
  let cell := st.sigs (SigKey.plain sid)
  let old := cell.value
  let next :=
    match arg with
    | JSVal.fn fid => st.fenv fid old
    | v => v
  let cell2 := { cell with value := next }
  let st1 := { st with sigs := Function.update st.sigs (SigKey.plain sid) cell2 }
  if old = next then (next, st1)
  else (next, notifySubs ((st1.sigs (SigKey.plain sid)).subs) st1)

/-- The signal `subscribe(fn)` closure: add an external listener to the
same delivery set (a JS `Set`, so adding an existing member is a
no-op). -/
def subscribeSig (sid : Nat) (eid : Nat) (st : EngState) : EngState :=
  let cell := st.sigs (SigKey.plain sid)
  let cell2 := { cell with subs := addIfAbsent (Subscriber.ext eid) cell.subs }
  { st with sigs := Function.update st.sigs (SigKey.plain sid) cell2 }

/-- The argument handed to `createEffect` / `createComputed`: either an
actual function (with its body) or a non-function value. -/
inductive CreateArg where
  | func (b : Body)
  | nonFunc (v : JSVal)

/-- `createEffect(fn)`: reject non-functions at call time; otherwise
allocate the computation, run it once synchronously, and return its id
(standing for the disposer). -/
def createEffect (arg : CreateArg) (st : EngState) :
    Except String (Nat × EngState) :=
  match arg with
  | CreateArg.nonFunc _ => Except.error "createEffect: fn must be a function"
  | CreateArg.func b =>
      let cid := st.nextComp
      let c : Comp := { body := b, kind := CompKind.effect }
      let st1 := { st with nextComp := cid + 1,
                           comps := Function.update st.comps cid (some c) }
      Except.ok (cid, runComp cid st1)

/-- The disposer returned by `createEffect`: unsubscribe from all
current dependencies, delete the `EFFECT_DEPS` entry, invoke the
pending cleanup one final time. -/
def disposeEffect (cid : Nat) (st : EngState) : EngState :=
  runCleanup cid (unsubscribeAll cid st)

/-- `createComputed(fn)`: reject non-functions at call time; otherwise
allocate the computation (dirty), run `recompute` once eagerly, and
return its id (standing for the getter). -/
def createComputed (arg : CreateArg) (st : EngState) :
    Except String (Nat × EngState) :=
  match arg with
  | CreateArg.nonFunc _ => Except.error "createComputed: fn must be a function"
  | CreateArg.func b =>
      let cid := st.nextComp
      let c : Comp := { body := b, kind := CompKind.computed }
      let st1 := { st with nextComp := cid + 1,
                           comps := Function.update st.comps cid (some c) }
      Except.ok (cid, runComp cid st1)

/-- The getter returned by `createComputed`: `if (dirty) recompute();
return cached`. -/
def computedGet (cid : Nat) (st : EngState) : JSVal × EngState :=
  match st.comps cid with
  | none => (.undef, st)
  | some c =>
      let st1 := if c.dirty then runComp cid st else st
      match st1.comps cid with
      | none => (.undef, st1)
      | some c2 => (c2.cached, st1)

/-- `$state(initial)`: allocate a proxy over a copy of `initial`. -/
def stateCreate (initial : List (String × JSVal)) (st : EngState) :
    Nat × EngState :=
  let oid := st.nextState
  let so : StateObj := { backing := initial }
  (oid, { st with nextState := oid + 1,
                  states := Function.update st.states oid (some so) })

/-- The closure returned for the reserved `subscribe` property of a
`$state` proxy: add `eid` to the object's global listener set. -/
def stateSubscribe (oid : Nat) (eid : Nat) (st : EngState) : EngState :=
  match st.states oid with
  | none => st
  | some so =>
      let so2 := { so with globalSubs := addIfAbsent eid so.globalSubs }
      { st with states := Function.update st.states oid (some so2) }

/-- Invoke one global listener with `(key, oldValue, newValue)`;
an exception it throws is caught and reported. -/
def globalStep (prop : String) (oldV newV : JSVal) (acc : EngState) (g : Nat) : EngState :=
  { acc with events := Event.globalCall g prop oldV newV :: acc.events }

/-- Invoke every global listener of a `$state` object with
`(key, oldValue, newValue)`; exceptions are caught per listener. -/
def notifyGlobal (oid : Nat) (prop : String) (oldV newV : JSVal)
    (st : EngState) : EngState :=
  match st.states oid with
  | none => st
  | some so =>
      so.globalSubs.foldl (globalStep prop oldV newV) st

/-- The `$state` proxy `set` trap: if the new value is `===` to the old
one, assign it and fire nothing; otherwise assign, notify the
property's `PropertySignal` subscribers (if the signal exists), then
notify every global listener with `(key, oldValue, newValue)`. -/
def stateSet (oid : Nat) (prop : String) (v : JSVal) (st : EngState) : EngState :=
  match st.states oid with
  | none => st
  | some so =>
      let old := alGet so.backing prop
      let so2 := { so with backing := alSet so.backing prop v }
      let st1 := { st with states := Function.update st.states oid (some so2) }
      if old = v then st1
      else
        let st2 :=
          if prop ∈ so.propSigs then
            notifySubs ((st1.sigs (SigKey.propSig oid prop)).subs) st1
          else st1
        notifyGlobal oid prop old v st2

/-- A top-level mutation step of application code: a signal `set` call
or a `$state` property assignment. -/
inductive WriteOp where
  | sigWrite (sid : Nat) (arg : JSVal)
  | stWrite (oid : Nat) (prop : String) (v : JSVal)

/-- Apply one top-level mutation. -/
def applyOp (st : EngState) : WriteOp → EngState
  | WriteOp.sigWrite sid a => (setSignal sid a st).2
  | WriteOp.stWrite oid p v => stateSet oid p v st

/-- Apply a sequence of top-level mutations, oldest first. -/
def applyOps (ops : List WriteOp) (st : EngState) : EngState :=
  ops.foldl applyOp st

/-- Number of times computation `cid`'s body has been invoked, per the
trace. -/
def runCount (cid : Nat) (st : EngState) : Nat :=
  st.events.count (Event.run cid)

/-- Number of times external listener `eid` has been invoked, per the
trace. -/
def extCount (eid : Nat) (st : EngState) : Nat :=
  st.events.count (Event.extCall eid)

/-- The values pushed by bodies to the user-level list, oldest
first (the `seen` array of the spec's scenario). -/
def seenOf (st : EngState) : List JSVal :=
  (st.events.filterMap
    (fun e => match e with | Event.emitted v => some v | _ => none)).reverse

/-- The empty engine state, parameterised by the meaning of function
values and the behavior of external listeners. -/
def initState (fenv : Nat → JSVal → JSVal) (exts : Nat → ExtBehavior) : EngState :=
  { sigs := fun _ => {}, nextSig := 0,
    comps := fun _ => none, nextComp := 0,
    deps := fun _ => [], stack := [],
    states := fun _ => none, nextState := 0,
    exts := exts, fenv := fenv, events := [], deferred := [] }

/-- `true` exactly on trace entries recording a body's user-level
push. -/
def Event.isEmitted : Event → Bool
  | Event.emitted _ => true
  | _ => false

/-- State components that the tracking / notification machinery never
changes: the effect stack (net of push/pop), the listener behaviors,
the updater environment, the values of plain signal cells, which
computations exist, and the backing records and global listener sets of
`$state` objects. -/
def Pres (st st2 : EngState) : Prop :=
  st2.stack = st.stack ∧
  st2.exts = st.exts ∧
  st2.fenv = st.fenv ∧
  (∀ n, (st2.sigs (SigKey.plain n)).value = (st.sigs (SigKey.plain n)).value) ∧
  (∀ x, (st2.comps x).isSome = (st.comps x).isSome) ∧
  (∀ oid, (st2.states oid).map StateObj.backing = (st.states oid).map StateObj.backing) ∧
  (∀ oid, (st2.states oid).map StateObj.globalSubs = (st.states oid).map StateObj.globalSubs)

/-- A computation that is registered nowhere: it appears in no
subscriber set and is not on the effect stack. -/
def Untouched (cid : Nat) (st : EngState) : Prop :=
  (∀ k, Subscriber.comp cid ∉ (st.sigs k).subs) ∧ cid ∉ st.stack

/-- `typeof v === "function"` for the dispatch in `set` (the opaque
`closureV` helpers never reach `set` in any modelled scenario). -/
def JSVal.isFn : JSVal → Bool
  | JSVal.fn _ => true
  | _ => false

/-- The next value `set` commits for a given argument: a function
argument is applied as an updater to the previous value. -/
def nextValue (st : EngState) (sid : Nat) (arg : JSVal) : JSVal :=
  match arg with
  | JSVal.fn fid => st.fenv fid (st.sigs (SigKey.plain sid)).value
  | v => v

/-- Commit a value into a plain signal cell, leaving its subscriber
set alone (the assignment part of `set`). -/
def setValue (sid : Nat) (v : JSVal) (st : EngState) : EngState :=
  let cell2 : Sig := { st.sigs (SigKey.plain sid) with value := v }
  { st with sigs := Function.update st.sigs (SigKey.plain sid) cell2 }

/-- The `STATE_PROP_SIGNALS` map has an entry for `(oid, p)`. -/
def propSigDeclared (st : EngState) (oid : Nat) (p : String) : Prop :=
  ∃ so, st.states oid = some so ∧ p ∈ so.propSigs

/-- The bookkeeping invariant of one computation during a run: it is
subscribed to exactly the signals in its `EFFECT_DEPS` entry, and every
property-signal it depends on has been created. -/
def TrackInv (cid : Nat) (st : EngState) : Prop :=
  (∀ k, Subscriber.comp cid ∈ (st.sigs k).subs ↔ k ∈ st.deps cid) ∧
  (∀ oid p, SigKey.propSig oid p ∈ st.deps cid → propSigDeclared st oid p)

/-- The state in which a computation body starts executing: stale
dependencies unsubscribed, pending cleanup invoked, the computation
pushed onto the stack, its invocation recorded. -/
def preBody (cid : Nat) (st : EngState) : EngState :=
  let st2 := runCleanup cid (unsubscribeAll cid st)
  { st2 with stack := cid :: st2.stack, events := Event.run cid :: st2.events }

/-- A computed that currently holds a clean (not dirty) cache. -/
def CleanComputed (cid : Nat) (st : EngState) : Prop :=
  ∃ c, st.comps cid = some c ∧ c.dirty = false ∧ c.kind = CompKind.computed

/-- Updater environment used by scenarios that never pass functions to
`set`. -/
def idFenv : Nat → JSVal → JSVal := fun _ v => v

/-- External listeners that all return normally. -/
def okExts : Nat → ExtBehavior := fun _ => ExtBehavior.ok

/-- Effect body of the spec scenario `() => seen.push(get())` on
signal 0. -/
def effSeenBody : Body := Body.read 0 (fun v => Body.emit v (Body.pure JSVal.undef))

/-- Scenario: `createSignal(0)`. -/
def effSt0 : EngState := (createSignal (JSVal.num 0) (initState idFenv okExts)).2

/-- Scenario: after `createEffect(() => seen.push(get()))`. -/
def effSt1 : EngState :=
  match createEffect (CreateArg.func effSeenBody) effSt0 with
  | Except.ok p => p.2
  | Except.error _ => effSt0

/-- Scenario: after `set(1)`. -/
def effSt2 : EngState := (setSignal 0 (JSVal.num 1) effSt1).2

/-- Scenario: after `set(2)`. -/
def effSt3 : EngState := (setSignal 0 (JSVal.num 2) effSt2).2

/-- Computed body of the spec scenario `() => g() * 2` on signal 0. -/
def dblBody : Body :=
  Body.read 0 (fun v => Body.pure (match v with
    | JSVal.num n => JSVal.num (2 * n)
    | _ => JSVal.undef))

/-- Scenario: `createSignal(5)`. -/
def compSt0 : EngState := (createSignal (JSVal.num 5) (initState idFenv okExts)).2

/-- Scenario: the computed of `createComputed(() => g() * 2)` and the
state after its eager initial run. -/
def compP : Nat × EngState :=
  match createComputed (CreateArg.func dblBody) compSt0 with
  | Except.ok p => p
  | Except.error _ => (0, compSt0)

/-- Scenario: after reading the computed once and then `s(7)`. -/
def compSt2 : EngState := (setSignal 0 (JSVal.num 7) (computedGet compP.1 compP.2).2).2

/-- Effect body with a conditional dependency: reads signal 1 when
signal 0 is `true`, otherwise reads signal 2. -/
def condBody : Body := Body.read 0 (fun v =>
  match v with
  | JSVal.bool true => Body.read 1 (fun w => Body.emit w (Body.pure JSVal.undef))
  | _ => Body.read 2 (fun w => Body.emit w (Body.pure JSVal.undef)))

/-- Scenario: three signals `true`, `10`, `20`. -/
def condSt0 : EngState :=
  (createSignal (JSVal.num 20)
    ((createSignal (JSVal.num 10)
      ((createSignal (JSVal.bool true) (initState idFenv okExts)).2)).2)).2

/-- Scenario: after creating the conditional effect (run N reads
signals 0 and 1). -/
def condSt1 : EngState :=
  match createEffect (CreateArg.func condBody) condSt0 with
  | Except.ok p => p.2
  | Except.error _ => condSt0

/-- Scenario: after `set0(false)` (run N+1 reads signals 0 and 2). -/
def condSt2 : EngState := (setSignal 0 (JSVal.bool false) condSt1).2

/-- Effect body reading only property `b` of `$state` object 0. -/
def propBBody : Body := Body.readProp 0 "b" (fun v => Body.emit v (Body.pure JSVal.undef))

/-- Scenario: `$state({a: 0, b: 1})`. -/
def isoSt0 : EngState :=
  (stateCreate [("a", JSVal.num 0), ("b", JSVal.num 1)] (initState idFenv okExts)).2

/-- Scenario: after creating an effect that reads only property `b`. -/
def isoSt1 : EngState :=
  match createEffect (CreateArg.func propBBody) isoSt0 with
  | Except.ok p => p.2
  | Except.error _ => isoSt0

/-- Scenario: `$state({count: 0})` with global listener 5. -/
def cntSt : EngState :=
  stateSubscribe 0 5 (stateCreate [("count", JSVal.num 0)] (initState idFenv okExts)).2

/-- External listeners where listener 1 throws. -/
def throwsExts : Nat → ExtBehavior :=
  fun e => if e = 1 then ExtBehavior.throws else ExtBehavior.ok

/-- Scenario: a signal with listeners 1 (throws) and 2 subscribed. -/
def isoSigSt : EngState :=
  subscribeSig 0 2 (subscribeSig 0 1
    ((createSignal (JSVal.num 0) (initState idFenv throwsExts)).2))

/-- Scenario: a signal with one external listener. -/
def dblSetSt : EngState :=
  subscribeSig 0 1 ((createSignal (JSVal.num 0) (initState idFenv okExts)).2)

/-- Witness state: one effect (id 0) registered on signal 0 with a
pending cleanup, its registry entry consistent. -/
def oneEffectSt : EngState :=
  { initState idFenv okExts with
      sigs := fun k => if k = SigKey.plain 0
        then { value := JSVal.num 0, subs := [Subscriber.comp 0] }
        else {},
      nextSig := 1,
      comps := Function.update (fun _ => none) 0
        (some { body := effSeenBody, kind := CompKind.effect, cleanup := some 7 }),
      nextComp := 1,
      deps := fun x => if x = 0 then [SigKey.plain 0] else [] }

/-- Environment in which the updater with id 0 returns the function
value `fn 0` itself, i.e. `function f(prev) { return f }`. -/
def selfFenv : Nat → JSVal → JSVal := fun _ _ => JSVal.fn 0

/-- Scenario: `createSignal(0)` under `selfFenv`. -/
def c9St : EngState := (createSignal (JSVal.num 0) (initState selfFenv okExts)).2

/-- Scenario: `$state` whose initial record defines a field named
`__isState`. -/
def hiddenSt : EngState :=
  (stateCreate [("__isState", JSVal.num 42)] (initState idFenv okExts)).2

theorem pres_refl (st : EngState) : Pres st st :=
  ⟨rfl, rfl, rfl, fun _ => rfl, fun _ => rfl, fun _ => rfl, fun _ => rfl⟩

theorem pres_trans {s1 s2 s3 : EngState} (h1 : Pres s1 s2) (h2 : Pres s2 s3) :
    Pres s1 s3 := by
  obtain ⟨a1, b1, c1, d1, e1, f1, g1⟩ := h1
  obtain ⟨a2, b2, c2, d2, e2, f2, g2⟩ := h2
  exact ⟨a2.trans a1, b2.trans b1, c2.trans c1,
    fun n => (d2 n).trans (d1 n), fun x => (e2 x).trans (e1 x),
    fun o => (f2 o).trans (f1 o), fun o => (g2 o).trans (g1 o)⟩

theorem mem_addIfAbsent {A : Type} [DecidableEq A] (a x : A) (l : List A) :
    a ∈ addIfAbsent x l ↔ a ∈ l ∨ a = x := by
  unfold addIfAbsent
  split_ifs with h
  · exact ⟨Or.inl, fun h2 => h2.elim id fun e => e ▸ h⟩
  · simp [List.mem_append]

theorem count_cons_ne {l : List Event} {a b : Event} (h : b ≠ a) :
    (b :: l).count a = l.count a := by
  simp [List.count_cons, h]

theorem trackDependency_sigs (r : Nat) (sk : SigKey) (st : EngState) (j : SigKey) :
    (trackDependency r sk st).sigs j =
      if j = sk
      then { st.sigs sk with subs := addIfAbsent (Subscriber.comp r) (st.sigs sk).subs }
      else st.sigs j := by
  simp [trackDependency, Function.update_apply]

theorem trackDependency_deps (r : Nat) (sk : SigKey) (st : EngState) (x : Nat) :
    (trackDependency r sk st).deps x =
      if x = r then addIfAbsent sk (st.deps r) else st.deps x := by
  simp [trackDependency, Function.update_apply]

theorem trackDependency_rest (r : Nat) (sk : SigKey) (st : EngState) :
    (trackDependency r sk st).stack = st.stack ∧
    (trackDependency r sk st).events = st.events ∧
    (trackDependency r sk st).comps = st.comps ∧
    (trackDependency r sk st).deferred = st.deferred ∧
    (trackDependency r sk st).states = st.states ∧
    (trackDependency r sk st).exts = st.exts ∧
    (trackDependency r sk st).fenv = st.fenv :=
  ⟨rfl, rfl, rfl, rfl, rfl, rfl, rfl⟩

theorem trackDependency_presv (r : Nat) (sk : SigKey) (st : EngState) :
    Pres st (trackDependency r sk st) := by
  refine ⟨rfl, rfl, rfl, ?_, fun _ => rfl, fun _ => rfl, fun _ => rfl⟩
  intro n
  rw [trackDependency_sigs]
  split_ifs with h
  · rw [h]
  · rfl

theorem trackDependency_untouched (r : Nat) (sk : SigKey) (st : EngState)
    (c0 : Nat) (h : c0 ≠ r) (hs : ∀ j, Subscriber.comp c0 ∉ (st.sigs j).subs) :
    ∀ j, Subscriber.comp c0 ∉ ((trackDependency r sk st).sigs j).subs := by
  intro j
  rw [trackDependency_sigs]
  split_ifs with e
  · intro hm
    rcases (mem_addIfAbsent _ _ _).1 hm with h1 | h2
    · exact hs sk h1
    · exact h (Subscriber.comp.inj h2)
  · exact hs j

theorem ensurePropSig_states (oid : Nat) (prop : String) (st : EngState) (o2 : Nat) :
    (ensurePropSig oid prop st).states o2 =
      if o2 = oid then
        (match st.states oid with
         | none => st.states o2
         | some so =>
             if prop ∈ so.propSigs then st.states o2
             else some { so with propSigs := so.propSigs ++ [prop] })
      else st.states o2 := by
  cases hso : st.states oid with
  | none => simp [ensurePropSig, hso]
  | some so =>
      by_cases hmem : prop ∈ so.propSigs
      · simp [ensurePropSig, hso, hmem]
      · by_cases ho : o2 = oid
        · subst ho
          simp [ensurePropSig, hso, hmem, Function.update_apply]
        · simp [ensurePropSig, hso, hmem, Function.update_apply, ho]

theorem ensurePropSig_sigs (oid : Nat) (prop : String) (st : EngState) (j : SigKey) :
    ((ensurePropSig oid prop st).sigs j).value = (st.sigs j).value ∨
      ((ensurePropSig oid prop st).sigs j).subs = [] := by
  cases hso : st.states oid with
  | none => left; simp [ensurePropSig, hso]
  | some so =>
      by_cases hmem : prop ∈ so.propSigs
      · left; simp [ensurePropSig, hso, hmem]
      · by_cases hj : j = SigKey.propSig oid prop
        · right; subst hj; simp [ensurePropSig, hso, hmem, Function.update_apply]
        · left; simp [ensurePropSig, hso, hmem, Function.update_apply, hj]

theorem ensurePropSig_sigs_other (oid : Nat) (prop : String) (st : EngState)
    (j : SigKey) (hj : j ≠ SigKey.propSig oid prop) :
    (ensurePropSig oid prop st).sigs j = st.sigs j := by
  cases hso : st.states oid with
  | none => simp [ensurePropSig, hso]
  | some so =>
      by_cases hmem : prop ∈ so.propSigs
      · simp [ensurePropSig, hso, hmem]
      · simp [ensurePropSig, hso, hmem, Function.update_apply, hj]

theorem ensurePropSig_rest (oid : Nat) (prop : String) (st : EngState) :
    (ensurePropSig oid prop st).events = st.events ∧
    (ensurePropSig oid prop st).comps = st.comps ∧
    (ensurePropSig oid prop st).deferred = st.deferred ∧
    (ensurePropSig oid prop st).deps = st.deps ∧
    (ensurePropSig oid prop st).stack = st.stack ∧
    (ensurePropSig oid prop st).exts = st.exts ∧
    (ensurePropSig oid prop st).fenv = st.fenv := by
  cases hso : st.states oid with
  | none => simp [ensurePropSig, hso]
  | some so =>
      by_cases hmem : prop ∈ so.propSigs
      · simp [ensurePropSig, hso, hmem]
      · simp [ensurePropSig, hso, hmem]

theorem ensurePropSig_presv (oid : Nat) (prop : String) (st : EngState) :
    Pres st (ensurePropSig oid prop st) := by
  obtain ⟨he, hc, hd, hdep, hst, hex, hf⟩ := ensurePropSig_rest oid prop st
  refine ⟨hst, hex, hf, ?_, ?_, ?_, ?_⟩
  · intro n
    rcases ensurePropSig_sigs oid prop st (SigKey.plain n) with h | h
    · exact h
    · have := ensurePropSig_sigs_other oid prop st (SigKey.plain n) (by simp)
      rw [this]
  · intro x; rw [hc]
  · intro o2
    rw [ensurePropSig_states]
    split_ifs with ho
    · subst ho
      cases hso : st.states o2 with
      | none => simp
      | some so =>
          simp only [hso]
          split_ifs with hmem
          · rfl
          · simp [hso]
    · rfl
  · intro o2
    rw [ensurePropSig_states]
    split_ifs with ho
    · subst ho
      cases hso : st.states o2 with
      | none => simp
      | some so =>
          simp only [hso]
          split_ifs with hmem
          · rfl
          · simp [hso]
    · rfl

theorem ensurePropSig_untouched (oid : Nat) (prop : String) (st : EngState)
    (c0 : Nat) (hs : ∀ j, Subscriber.comp c0 ∉ (st.sigs j).subs) :
    ∀ j, Subscriber.comp c0 ∉ ((ensurePropSig oid prop st).sigs j).subs := by
  intro j
  by_cases hj : j = SigKey.propSig oid prop
  · subst hj
    cases hso : st.states oid with
    | none => simp only [ensurePropSig, hso]; exact hs _
    | some so =>
        by_cases hmem : prop ∈ so.propSigs
        · simp only [ensurePropSig, hso]
          rw [if_pos hmem]
          exact hs _
        · simp [ensurePropSig, hso, hmem, Function.update_apply]
  · rw [ensurePropSig_sigs_other oid prop st j hj]
    exact hs j

theorem getSignal_state (sid : Nat) (st : EngState) :
    (getSignal sid st).2.2 =
      match st.stack with
      | [] => st
      | active :: _ => trackDependency active (SigKey.plain sid) st := by
  cases hs : st.stack with
  | nil => simp [getSignal, hs]
  | cons a rest => simp [getSignal, hs]

theorem getSignal_pres (sid : Nat) (st : EngState) :
    Pres st (getSignal sid st).2.2 ∧
    (getSignal sid st).2.2.events = st.events ∧
    (getSignal sid st).2.2.comps = st.comps ∧
    (getSignal sid st).2.2.deferred = st.deferred ∧
    (∀ c0, c0 ∉ st.stack → (∀ j, Subscriber.comp c0 ∉ (st.sigs j).subs) →
      ∀ j, Subscriber.comp c0 ∉ ((getSignal sid st).2.2.sigs j).subs) := by
  rw [getSignal_state]
  cases hs : st.stack with
  | nil => exact ⟨pres_refl st, rfl, rfl, rfl, fun c0 _ h j => h j⟩
  | cons a rest =>
      refine ⟨trackDependency_presv a (SigKey.plain sid) st, rfl, rfl, rfl, ?_⟩
      intro c0 hst hsub
      have hne : c0 ≠ a := by
        intro e; exact hst (e ▸ List.mem_cons_self a rest)
      exact trackDependency_untouched a (SigKey.plain sid) st c0 hne hsub

theorem stateGet_state (oid : Nat) (prop : String) (st : EngState) :
    (stateGet oid prop st).2.2 = st ∨
      ((stateGet oid prop st).2.2 =
        trackDependency (st.stack.headD 0) (SigKey.propSig oid prop)
          (ensurePropSig oid prop st) ∧ st.stack ≠ []) := by
  cases hso : st.states oid with
  | none => left; simp [stateGet, hso]
  | some so =>
      by_cases h1 : prop = "__isState"
      · left; simp [stateGet, hso, h1]
      · by_cases h2 : prop = "subscribe"
        · left; simp [stateGet, hso, h1, h2]
        · by_cases h3 : prop = "inspect"
          · left; simp [stateGet, hso, h1, h2, h3]
          · cases hs : st.stack with
            | nil => left; simp [stateGet, hso, h1, h2, h3, hs]
            | cons a rest =>
                right
                constructor
                · simp [stateGet, hso, h1, h2, h3, hs]
                · simp

theorem stateGet_pres (oid : Nat) (prop : String) (st : EngState) :
    Pres st (stateGet oid prop st).2.2 ∧
    (stateGet oid prop st).2.2.events = st.events ∧
    (stateGet oid prop st).2.2.comps = st.comps ∧
    (stateGet oid prop st).2.2.deferred = st.deferred ∧
    (∀ c0, c0 ∉ st.stack → (∀ j, Subscriber.comp c0 ∉ (st.sigs j).subs) →
      ∀ j, Subscriber.comp c0 ∉ ((stateGet oid prop st).2.2.sigs j).subs) := by
  rcases stateGet_state oid prop st with h | ⟨h, hne⟩
  · rw [h]
    exact ⟨pres_refl st, rfl, rfl, rfl, fun c0 _ hsub j => hsub j⟩
  · rw [h]
    obtain ⟨ee, ec, ed, edep, estk, eex, ef⟩ := ensurePropSig_rest oid prop st
    have ep := ensurePropSig_presv oid prop st
    have tp := trackDependency_presv (st.stack.headD 0) (SigKey.propSig oid prop)
      (ensurePropSig oid prop st)
    have tr := trackDependency_rest (st.stack.headD 0) (SigKey.propSig oid prop)
      (ensurePropSig oid prop st)
    refine ⟨pres_trans ep tp, tr.2.1.trans ee, tr.2.2.1.trans ec, tr.2.2.2.1.trans ed, ?_⟩
    intro c0 hst hsub
    have hne2 : c0 ≠ st.stack.headD 0 := by
      intro e
      cases hsl : st.stack with
      | nil => exact hne hsl
      | cons a rest =>
          rw [hsl] at e hst
          simp at e
          exact hst (e ▸ List.mem_cons_self a rest)
    exact trackDependency_untouched _ _ _ c0 hne2
      (ensurePropSig_untouched oid prop st c0 hsub)

theorem interpBody_read_eq (sid : Nat) (k : JSVal → Body) (st : EngState) :
    interpBody (Body.read sid k) st =
      ((interpBody (k (getSignal sid st).1) (getSignal sid st).2.2).1,
       (getSignal sid st).2.1 ++
         (interpBody (k (getSignal sid st).1) (getSignal sid st).2.2).2.1,
       (interpBody (k (getSignal sid st).1) (getSignal sid st).2.2).2.2) := rfl

theorem interpBody_readProp_eq (oid : Nat) (prop : String) (k : JSVal → Body)
    (st : EngState) :
    interpBody (Body.readProp oid prop k) st =
      ((interpBody (k (stateGet oid prop st).1) (stateGet oid prop st).2.2).1,
       (stateGet oid prop st).2.1 ++
         (interpBody (k (stateGet oid prop st).1) (stateGet oid prop st).2.2).2.1,
       (interpBody (k (stateGet oid prop st).1) (stateGet oid prop st).2.2).2.2) := rfl

theorem interpBody_emit_eq (v : JSVal) (rest : Body) (st : EngState) :
    interpBody (Body.emit v rest) st =
      interpBody rest { st with events := Event.emitted v :: st.events } := rfl

theorem interp_pres (b : Body) : ∀ st : EngState,
    Pres st (interpBody b st).2.2 ∧
    (interpBody b st).2.2.comps = st.comps ∧
    (interpBody b st).2.2.deferred = st.deferred ∧
    (∀ e, Event.isEmitted e = false →
      (interpBody b st).2.2.events.count e = st.events.count e) ∧
    (∀ c0, c0 ∉ st.stack → (∀ j, Subscriber.comp c0 ∉ (st.sigs j).subs) →
      ∀ j, Subscriber.comp c0 ∉ ((interpBody b st).2.2.sigs j).subs) := by
  induction b with
  | pure v =>
      intro st
      exact ⟨pres_refl st, rfl, rfl, fun _ _ => rfl, fun c0 _ h j => h j⟩
  | emit v rest ih =>
      intro st
      show Pres st (interpBody rest _).2.2 ∧ _
      obtain ⟨p, hc, hd, he, hu⟩ := ih { st with events := Event.emitted v :: st.events }
      have p0 : Pres st { st with events := Event.emitted v :: st.events } :=
        ⟨rfl, rfl, rfl, fun _ => rfl, fun _ => rfl, fun _ => rfl, fun _ => rfl⟩
      refine ⟨pres_trans p0 p, hc, hd, ?_, ?_⟩
      · intro e h0
        have hne : Event.emitted v ≠ e := by
          intro hv; rw [← hv] at h0; exact absurd h0 (by simp [Event.isEmitted])
        exact (he e h0).trans (count_cons_ne hne)
      · intro c0 hst hsub
        exact hu c0 hst hsub
  | read sid k ih =>
      intro st
      rw [interpBody_read_eq]
      obtain ⟨gp, ge, gc, gd, gu⟩ := getSignal_pres sid st
      obtain ⟨p, hc, hd, he, hu⟩ := ih (getSignal sid st).1 (getSignal sid st).2.2
      refine ⟨pres_trans gp p, hc.trans gc, hd.trans gd, ?_, ?_⟩
      · intro e h0
        rw [he e h0, ge]
      · intro c0 hst hsub
        have hst2 : c0 ∉ (getSignal sid st).2.2.stack := by rw [gp.1]; exact hst
        exact hu c0 hst2 (gu c0 hst hsub)
  | readProp oid prop k ih =>
      intro st
      rw [interpBody_readProp_eq]
      obtain ⟨gp, ge, gc, gd, gu⟩ := stateGet_pres oid prop st
      obtain ⟨p, hc, hd, he, hu⟩ := ih (stateGet oid prop st).1 (stateGet oid prop st).2.2
      refine ⟨pres_trans gp p, hc.trans gc, hd.trans gd, ?_, ?_⟩
      · intro e h0
        rw [he e h0, ge]
      · intro c0 hst hsub
        have hst2 : c0 ∉ (stateGet oid prop st).2.2.stack := by rw [gp.1]; exact hst
        exact hu c0 hst2 (gu c0 hst hsub)

theorem removeSubStep_sigs (cid : Nat) (acc : EngState) (sk j : SigKey) :
    (removeSubStep cid acc sk).sigs j =
      if j = sk
      then { acc.sigs sk with
              subs := (acc.sigs sk).subs.filter (fun s => s ≠ Subscriber.comp cid) }
      else acc.sigs j := by
  simp [removeSubStep, Function.update_apply]

theorem removeSubStep_rest (cid : Nat) (acc : EngState) (sk : SigKey) :
    (removeSubStep cid acc sk).events = acc.events ∧
    (removeSubStep cid acc sk).comps = acc.comps ∧
    (removeSubStep cid acc sk).deps = acc.deps ∧
    (removeSubStep cid acc sk).stack = acc.stack ∧
    (removeSubStep cid acc sk).states = acc.states ∧
    (removeSubStep cid acc sk).deferred = acc.deferred ∧
    (removeSubStep cid acc sk).exts = acc.exts ∧
    (removeSubStep cid acc sk).fenv = acc.fenv :=
  ⟨rfl, rfl, rfl, rfl, rfl, rfl, rfl, rfl⟩

theorem unsubFold_rest (cid : Nat) (l : List SigKey) : ∀ st : EngState,
    (l.foldl (removeSubStep cid) st).events = st.events ∧
    (l.foldl (removeSubStep cid) st).comps = st.comps ∧
    (l.foldl (removeSubStep cid) st).deps = st.deps ∧
    (l.foldl (removeSubStep cid) st).stack = st.stack ∧
    (l.foldl (removeSubStep cid) st).states = st.states ∧
    (l.foldl (removeSubStep cid) st).deferred = st.deferred ∧
    (l.foldl (removeSubStep cid) st).exts = st.exts ∧
    (l.foldl (removeSubStep cid) st).fenv = st.fenv := by
  induction l with
  | nil => intro st; exact ⟨rfl, rfl, rfl, rfl, rfl, rfl, rfl, rfl⟩
  | cons sk rest ih =>
      intro st
      have h := ih (removeSubStep cid st sk)
      simpa [List.foldl_cons] using h

theorem unsubFold_value (cid : Nat) (l : List SigKey) : ∀ (st : EngState) (j : SigKey),
    ((l.foldl (removeSubStep cid) st).sigs j).value = (st.sigs j).value := by
  induction l with
  | nil => intro st j; rfl
  | cons sk rest ih =>
      intro st j
      rw [List.foldl_cons, ih (removeSubStep cid st sk) j, removeSubStep_sigs]
      split_ifs with h
      · rw [h]
      · rfl

theorem unsubFold_subs (cid : Nat) (l : List SigKey) : ∀ (st : EngState) (j : SigKey),
    ((l.foldl (removeSubStep cid) st).sigs j).subs =
      if j ∈ l
      then ((st.sigs j).subs).filter (fun s => s ≠ Subscriber.comp cid)
      else (st.sigs j).subs := by
  induction l with
  | nil => intro st j; simp
  | cons sk rest ih =>
      intro st j
      rw [List.foldl_cons, ih (removeSubStep cid st sk) j, removeSubStep_sigs]
      by_cases h1 : j = sk
      · subst h1
        by_cases h2 : j ∈ rest
        · simp [h2, List.filter_filter]
        · simp [h2]
      · by_cases h2 : j ∈ rest
        · simp [h1, h2, List.mem_cons]
        · simp [h1, h2, List.mem_cons]

theorem unsubscribeAll_subs (cid : Nat) (st : EngState) (j : SigKey) :
    ((unsubscribeAll cid st).sigs j).subs =
      if j ∈ st.deps cid
      then ((st.sigs j).subs).filter (fun s => s ≠ Subscriber.comp cid)
      else (st.sigs j).subs := by
  show (((st.deps cid).foldl (removeSubStep cid) st).sigs j).subs = _
  exact unsubFold_subs cid (st.deps cid) st j

theorem unsubscribeAll_value (cid : Nat) (st : EngState) (j : SigKey) :
    ((unsubscribeAll cid st).sigs j).value = (st.sigs j).value :=
  unsubFold_value cid (st.deps cid) st j

theorem unsubscribeAll_deps (cid : Nat) (st : EngState) (x : Nat) :
    (unsubscribeAll cid st).deps x = if x = cid then [] else st.deps x := by
  show (Function.update ((st.deps cid).foldl (removeSubStep cid) st).deps cid []) x = _
  rw [Function.update_apply]
  split_ifs with h
  · rfl
  · exact congrFun (unsubFold_rest cid (st.deps cid) st).2.2.1 x

theorem unsubscribeAll_rest (cid : Nat) (st : EngState) :
    (unsubscribeAll cid st).events = st.events ∧
    (unsubscribeAll cid st).comps = st.comps ∧
    (unsubscribeAll cid st).stack = st.stack ∧
    (unsubscribeAll cid st).states = st.states ∧
    (unsubscribeAll cid st).deferred = st.deferred ∧
    (unsubscribeAll cid st).exts = st.exts ∧
    (unsubscribeAll cid st).fenv = st.fenv := by
  have h := unsubFold_rest cid (st.deps cid) st
  exact ⟨h.1, h.2.1, h.2.2.2.1, h.2.2.2.2.1, h.2.2.2.2.2.1, h.2.2.2.2.2.2.1,
    h.2.2.2.2.2.2.2⟩

theorem unsubscribeAll_presv (cid : Nat) (st : EngState) :
    Pres st (unsubscribeAll cid st) := by
  obtain ⟨he, hc, hst, hsx, hd, hex, hf⟩ := unsubscribeAll_rest cid st
  refine ⟨hst, hex, hf, ?_, ?_, ?_, ?_⟩
  · intro n; exact unsubscribeAll_value cid st (SigKey.plain n)
  · intro x; rw [hc]
  · intro o; rw [hsx]
  · intro o; rw [hsx]

theorem unsubscribeAll_clean (cid : Nat) (st : EngState)
    (hwf : ∀ j, Subscriber.comp cid ∈ (st.sigs j).subs → j ∈ st.deps cid) :
    ∀ j, Subscriber.comp cid ∉ ((unsubscribeAll cid st).sigs j).subs := by
  intro j
  rw [unsubscribeAll_subs]
  split_ifs with h
  · simp
  · intro hm; exact h (hwf j hm)

theorem unsubscribeAll_untouched (cid c0 : Nat) (st : EngState)
    (hs : ∀ j, Subscriber.comp c0 ∉ (st.sigs j).subs) :
    ∀ j, Subscriber.comp c0 ∉ ((unsubscribeAll cid st).sigs j).subs := by
  intro j
  rw [unsubscribeAll_subs]
  split_ifs with h
  · intro hm; exact hs j (List.mem_of_mem_filter hm)
  · exact hs j

theorem runCleanup_rest (cid : Nat) (st : EngState) :
    (runCleanup cid st).sigs = st.sigs ∧
    (runCleanup cid st).deps = st.deps ∧
    (runCleanup cid st).stack = st.stack ∧
    (runCleanup cid st).states = st.states ∧
    (runCleanup cid st).deferred = st.deferred ∧
    (runCleanup cid st).exts = st.exts ∧
    (runCleanup cid st).fenv = st.fenv := by
  cases h : st.comps cid with
  | none => simp [runCleanup, h]
  | some c =>
      cases hc : c.cleanup with
      | none => simp [runCleanup, h, hc]
      | some f => simp [runCleanup, h, hc]

theorem runCleanup_comps (cid : Nat) (st : EngState) (x : Nat) :
    (runCleanup cid st).comps x = st.comps x ∨
      (x = cid ∧ ∃ c, st.comps cid = some c ∧
        (runCleanup cid st).comps x = some { c with cleanup := none }) := by
  cases h : st.comps cid with
  | none => left; simp [runCleanup, h]
  | some c =>
      cases hc : c.cleanup with
      | none => left; simp [runCleanup, h, hc]
      | some f =>
          by_cases hx : x = cid
          · subst hx
            right
            exact ⟨rfl, c, rfl, by simp [runCleanup, h, hc, Function.update_apply]⟩
          · left
            simp [runCleanup, h, hc, Function.update_apply, hx]

theorem runCleanup_comps_isSome (cid : Nat) (st : EngState) (x : Nat) :
    ((runCleanup cid st).comps x).isSome = (st.comps x).isSome := by
  rcases runCleanup_comps cid st x with h | ⟨hx, c, hc, h⟩
  · rw [h]
  · subst hx; rw [h, hc]; rfl

theorem runCleanup_count (cid : Nat) (st : EngState) (e : Event)
    (he : ∀ f, e ≠ Event.cleanupCall f) :
    (runCleanup cid st).events.count e = st.events.count e := by
  cases h : st.comps cid with
  | none => simp [runCleanup, h]
  | some c =>
      cases hc : c.cleanup with
      | none => simp [runCleanup, h, hc]
      | some f =>
          have : (runCleanup cid st).events = Event.cleanupCall f :: st.events := by
            simp [runCleanup, h, hc]
          rw [this]
          exact count_cons_ne fun hh => he f hh.symm

theorem runCleanup_presv (cid : Nat) (st : EngState) :
    Pres st (runCleanup cid st) := by
  obtain ⟨hs, hd, hst, hsx, hdf, hex, hf⟩ := runCleanup_rest cid st
  refine ⟨hst, hex, hf, ?_, ?_, ?_, ?_⟩
  · intro n; rw [hs]
  · intro x; exact runCleanup_comps_isSome cid st x
  · intro o; rw [hsx]
  · intro o; rw [hsx]

theorem storeResult_rest (cid : Nat) (r : JSVal) (st : EngState) :
    (storeResult cid r st).sigs = st.sigs ∧
    (storeResult cid r st).deps = st.deps ∧
    (storeResult cid r st).stack = st.stack ∧
    (storeResult cid r st).states = st.states ∧
    (storeResult cid r st).events = st.events ∧
    (storeResult cid r st).deferred = st.deferred ∧
    (storeResult cid r st).exts = st.exts ∧
    (storeResult cid r st).fenv = st.fenv := by
  unfold storeResult
  split
  · exact ⟨rfl, rfl, rfl, rfl, rfl, rfl, rfl, rfl⟩
  · split <;> exact ⟨rfl, rfl, rfl, rfl, rfl, rfl, rfl, rfl⟩

theorem storeResult_comps_isSome (cid : Nat) (r : JSVal) (st : EngState) (x : Nat) :
    ((storeResult cid r st).comps x).isSome = (st.comps x).isSome := by
  unfold storeResult
  split
  · rfl
  · rename_i c2 h2
    split <;>
      first
        | rfl
        | (dsimp only
           rw [Function.update_apply]
           split_ifs with hx
           · subst hx; rw [h2]; rfl
           · rfl)

theorem runComp_none (cid : Nat) (st : EngState) (h : st.comps cid = none) :
    runComp cid st = st := by
  simp [runComp, runCompAux, h]

theorem runComp_some_eq (cid : Nat) (st : EngState) (c : Comp)
    (h : st.comps cid = some c) :
    runComp cid st =
      (let st2 := runCleanup cid (unsubscribeAll cid st)
       let st3 := { st2 with stack := cid :: st2.stack,
                             events := Event.run cid :: st2.events }
       let t := interpBody c.body st3
       let st5 := storeResult cid t.1 t.2.2
       { st5 with stack := st5.stack.tail }) := by
  simp [runComp, runCompAux, h]

theorem storeResult_computed (cid : Nat) (r : JSVal) (st : EngState) (c2 : Comp)
    (h : st.comps cid = some c2) (hk : c2.kind = CompKind.computed) :
    ∃ c3, (storeResult cid r st).comps cid = some c3 ∧ c3.dirty = false ∧
      c3.kind = CompKind.computed := by
  cases r <;> simp [storeResult, h, hk, Function.update_apply]

theorem runComp_pres (cid : Nat) (st : EngState) :
    Pres st (runComp cid st) ∧
    (runComp cid st).deferred = st.deferred ∧
    (∀ g, extCount g (runComp cid st) = extCount g st) ∧
    (∀ g p o n, (runComp cid st).events.count (Event.globalCall g p o n) =
      st.events.count (Event.globalCall g p o n)) ∧
    (∀ c0, c0 ≠ cid → runCount c0 (runComp cid st) = runCount c0 st) ∧
    (∀ c0, c0 ≠ cid → Untouched c0 st → Untouched c0 (runComp cid st)) := by
  cases h : st.comps cid with
  | none =>
      rw [runComp_none cid st h]
      exact ⟨pres_refl st, rfl, fun _ => rfl, fun _ _ _ _ => rfl, fun _ _ => rfl,
        fun _ _ hu => hu⟩
  | some c =>
      obtain ⟨u_ev, u_cm, u_stk, u_sx, u_df, u_ex, u_f⟩ := unsubscribeAll_rest cid st
      have u_p := unsubscribeAll_presv cid st
      obtain ⟨c_sg, c_dp, c_stk, c_sx, c_df, c_ex, c_f⟩ :=
        runCleanup_rest cid (unsubscribeAll cid st)
      have c_p := runCleanup_presv cid (unsubscribeAll cid st)
      set s1 := unsubscribeAll cid st with hs1
      set s2 := runCleanup cid s1 with hs2
      set s3 : EngState :=
        { s2 with stack := cid :: s2.stack, events := Event.run cid :: s2.events }
        with hs3
      obtain ⟨i_p, i_cm, i_df, i_cnt, i_un⟩ := interp_pres c.body s3
      obtain ⟨i_stk, i_ex, i_f, i_val, i_cis, i_bk, i_gs⟩ := i_p
      set t := interpBody c.body s3 with ht
      obtain ⟨r_sg, r_dp, r_stk, r_sx, r_ev, r_df, r_ex, r_f⟩ :=
        storeResult_rest cid t.1 t.2.2
      set s5 := storeResult cid t.1 t.2.2 with hs5
      have efin : runComp cid st = { s5 with stack := s5.stack.tail } :=
        runComp_some_eq cid st c h
      have fin_stack : ({ s5 with stack := s5.stack.tail } : EngState).stack = st.stack := by
        show s5.stack.tail = st.stack
        rw [r_stk, i_stk]
        show (cid :: s2.stack).tail = st.stack
        rw [List.tail_cons, c_stk, u_stk]
      have s3_sigs : s3.sigs = s2.sigs := rfl
      have s3_comps : s3.comps = s2.comps := rfl
      have s3_df : s3.deferred = s2.deferred := rfl
      have s3_sx : s3.states = s2.states := rfl
      have s3_ex : s3.exts = s2.exts := rfl
      have s3_f : s3.fenv = s2.fenv := rfl
      have s3_ev : s3.events = Event.run cid :: s2.events := rfl
      have s3_stk : s3.stack = cid :: s2.stack := rfl
      have count_chain : ∀ e : Event, Event.isEmitted e = false →
          e ≠ Event.run cid → (∀ f, e ≠ Event.cleanupCall f) →
          ({ s5 with stack := s5.stack.tail } : EngState).events.count e =
            st.events.count e := by
        intro e hem hrun hcl
        show s5.events.count e = st.events.count e
        rw [r_ev, i_cnt e hem, s3_ev, count_cons_ne (fun hh => hrun hh.symm)]
        rw [hs2] at *
        rw [runCleanup_count cid s1 e hcl, u_ev]
      rw [efin]
      refine ⟨?_, ?_, ?_, ?_, ?_, ?_⟩
      · refine ⟨fin_stack, ?_, ?_, ?_, ?_, ?_, ?_⟩
        · show s5.exts = st.exts
          rw [r_ex, i_ex, s3_ex, c_ex, u_ex]
        · show s5.fenv = st.fenv
          rw [r_f, i_f, s3_f, c_f, u_f]
        · intro n
          show (s5.sigs (SigKey.plain n)).value = (st.sigs (SigKey.plain n)).value
          rw [r_sg, i_val n]
          show ((s2.sigs) (SigKey.plain n)).value = _
          rw [c_sg]
          exact unsubscribeAll_value cid st (SigKey.plain n)
        · intro x
          show (s5.comps x).isSome = (st.comps x).isSome
          rw [hs5, storeResult_comps_isSome, i_cm, s3_comps, hs2,
            runCleanup_comps_isSome, u_cm]
        · intro o
          show (s5.states o).map StateObj.backing = (st.states o).map StateObj.backing
          rw [r_sx, i_bk o]
          show ((s2.states) o).map StateObj.backing = _
          rw [c_sx, u_sx]
        · intro o
          show (s5.states o).map StateObj.globalSubs = (st.states o).map StateObj.globalSubs
          rw [r_sx, i_gs o]
          show ((s2.states) o).map StateObj.globalSubs = _
          rw [c_sx, u_sx]
      · show s5.deferred = st.deferred
        rw [r_df, i_df, s3_df, c_df, u_df]
      · intro g
        exact count_chain (Event.extCall g) rfl (by simp) (by simp)
      · intro g p o n
        exact count_chain (Event.globalCall g p o n) rfl (by simp) (by simp)
      · intro c0 hne
        exact count_chain (Event.run c0) rfl (by simp [hne]) (by simp)
      · intro c0 hne hu
        obtain ⟨husubs, hustk⟩ := hu
        have h1 : ∀ j, Subscriber.comp c0 ∉ (s1.sigs j).subs := by
          rw [hs1]; exact unsubscribeAll_untouched cid c0 st husubs
        have h2 : ∀ j, Subscriber.comp c0 ∉ (s3.sigs j).subs := by
          rw [s3_sigs, c_sg]; exact h1
        have h3 : c0 ∉ s3.stack := by
          rw [s3_stk, c_stk, u_stk]
          intro hm
          rcases List.mem_cons.1 hm with hh | hh
          · exact hne hh
          · exact hustk hh
        constructor
        · intro j
          show Subscriber.comp c0 ∉ (s5.sigs j).subs
          rw [r_sg]
          exact i_un c0 h3 h2 j
        · rw [fin_stack]
          exact hustk

theorem runComp_runs (cid : Nat) (st : EngState) (c : Comp)
    (h : st.comps cid = some c) :
    runCount cid (runComp cid st) = runCount cid st + 1 := by
  obtain ⟨u_ev, u_cm, u_stk, u_sx, u_df, u_ex, u_f⟩ := unsubscribeAll_rest cid st
  obtain ⟨i_p, i_cm, i_df, i_cnt, i_un⟩ :=
    interp_pres c.body
      { runCleanup cid (unsubscribeAll cid st) with
          stack := cid :: (runCleanup cid (unsubscribeAll cid st)).stack,
          events := Event.run cid :: (runCleanup cid (unsubscribeAll cid st)).events }
  have efin := runComp_some_eq cid st c h
  rw [efin]
  show runCount cid
    { storeResult cid _ _ with stack := _ } = _
  unfold runCount
  rw [(storeResult_rest cid _ _).2.2.2.2.1]
  rw [i_cnt (Event.run cid) rfl]
  show (Event.run cid :: (runCleanup cid (unsubscribeAll cid st)).events).count
    (Event.run cid) = _
  rw [List.count_cons_self]
  rw [runCleanup_count cid (unsubscribeAll cid st) (Event.run cid) (by simp), u_ev]

theorem runComp_computed (cid : Nat) (st : EngState) (c : Comp)
    (h : st.comps cid = some c) (hk : c.kind = CompKind.computed) :
    ∃ c2, (runComp cid st).comps cid = some c2 ∧ c2.dirty = false ∧
      c2.kind = CompKind.computed := by
  obtain ⟨u_ev, u_cm, u_stk, u_sx, u_df, u_ex, u_f⟩ := unsubscribeAll_rest cid st
  set s1 := unsubscribeAll cid st with hs1
  have hc1 : s1.comps cid = some c := by rw [u_cm, h]
  set s2 := runCleanup cid s1 with hs2
  have hc2 : ∃ c9, s2.comps cid = some c9 ∧ c9.kind = CompKind.computed := by
    rcases runCleanup_comps cid s1 cid with hh | ⟨_, c8, hc8, hh⟩
    · exact ⟨c, by rw [hh, hc1], hk⟩
    · refine ⟨{ c8 with cleanup := none }, hh, ?_⟩
      rw [hc1] at hc8
      cases hc8
      exact hk
  obtain ⟨c9, hc9, hk9⟩ := hc2
  set s3 : EngState :=
    { s2 with stack := cid :: s2.stack, events := Event.run cid :: s2.events }
    with hs3
  obtain ⟨i_p, i_cm, i_df, i_cnt, i_un⟩ := interp_pres c.body s3
  set t := interpBody c.body s3 with ht
  have hc3 : t.2.2.comps cid = some c9 := by
    rw [i_cm]
    exact hc9
  have efin := runComp_some_eq cid st c h
  rw [efin]
  obtain ⟨c3, hc3sr, hd3, hk3⟩ := storeResult_computed cid t.1 t.2.2 c9 hc3 hk9
  exact ⟨c3, hc3sr, hd3, hk3⟩

theorem notifyStep_pres (st : EngState) (s : Subscriber) :
    Pres st (notifyStep st s) ∧
    (∀ g p o n, (notifyStep st s).events.count (Event.globalCall g p o n) =
      st.events.count (Event.globalCall g p o n)) ∧
    (∀ e, extCount e (notifyStep st s) =
      extCount e st + (if s = Subscriber.ext e then 1 else 0)) ∧
    (∀ c0, s ≠ Subscriber.comp c0 →
      runCount c0 (notifyStep st s) = runCount c0 st) ∧
    (∀ c0, s ≠ Subscriber.comp c0 → Untouched c0 st →
      Untouched c0 (notifyStep st s)) ∧
    (∀ x, x ∈ st.deferred → x ∈ (notifyStep st s).deferred) ∧
    (∀ e, s = Subscriber.ext e → st.exts e = ExtBehavior.throws →
      e ∈ (notifyStep st s).deferred) ∧
    (∀ c0, (st.comps c0).isSome = true → s = Subscriber.comp c0 →
      runCount c0 (notifyStep st s) = runCount c0 st + 1) := by
  cases s with
  | comp cid =>
      have hstep : notifyStep st (Subscriber.comp cid) = runComp cid st := rfl
      rw [hstep]
      obtain ⟨rp, rdf, rx, rg, rr, rt⟩ := runComp_pres cid st
      refine ⟨rp, rg, ?_, ?_, ?_, ?_, ?_, ?_⟩
      · intro e
        rw [rx e]
        simp
      · intro c0 hne
        exact rr c0 fun e => hne (e ▸ rfl)
      · intro c0 hne hu
        exact rt c0 (fun e => hne (e ▸ rfl)) hu
      · intro x hx
        rw [rdf]; exact hx
      · intro e he
        exact absurd he (by simp)
      · intro c0 hsm he
        have : c0 = cid := by injection he.symm
        subst this
        obtain ⟨c, hc⟩ := Option.isSome_iff_exists.1 hsm
        exact runComp_runs c0 st c hc
  | ext eid =>
      cases hb : st.exts eid with
      | ok =>
          have hstep : notifyStep st (Subscriber.ext eid) =
              { st with events := Event.extCall eid :: st.events } := by
            simp [notifyStep, hb]
          rw [hstep]
          refine ⟨⟨rfl, rfl, rfl, fun _ => rfl, fun _ => rfl, fun _ => rfl, fun _ => rfl⟩,
            ?_, ?_, ?_, ?_, ?_, ?_, ?_⟩
          · intro g p o n
            exact count_cons_ne (by simp)
          · intro e
            show (Event.extCall eid :: st.events).count (Event.extCall e) = _
            rw [List.count_cons]
            simp [extCount]
          · intro c0 _
            exact count_cons_ne (by simp)
          · intro c0 _ hu
            exact hu
          · intro x hx
            exact hx
          · intro e he hth
            have : eid = e := by injection he
            subst this
            rw [hb] at hth
            exact absurd hth (by simp)
          · intro c0 _ he
            exact absurd he (by simp)
      | throws =>
          have hstep : notifyStep st (Subscriber.ext eid) =
              { st with events := Event.extCall eid :: st.events,
                        deferred := eid :: st.deferred } := by
            simp [notifyStep, hb]
          rw [hstep]
          refine ⟨⟨rfl, rfl, rfl, fun _ => rfl, fun _ => rfl, fun _ => rfl, fun _ => rfl⟩,
            ?_, ?_, ?_, ?_, ?_, ?_, ?_⟩
          · intro g p o n
            exact count_cons_ne (by simp)
          · intro e
            show (Event.extCall eid :: st.events).count (Event.extCall e) = _
            rw [List.count_cons]
            simp [extCount]
          · intro c0 _
            exact count_cons_ne (by simp)
          · intro c0 _ hu
            exact hu
          · intro x hx
            exact List.mem_cons_of_mem eid hx
          · intro e he _
            have : eid = e := by injection he
            subst this
            exact List.mem_cons_self _ _
          · intro c0 _ he
            exact absurd he (by simp)

theorem notifySubs_pres (snapshot : List Subscriber) : ∀ st : EngState,
    Pres st (notifySubs snapshot st) ∧
    (∀ g p o n, (notifySubs snapshot st).events.count (Event.globalCall g p o n) =
      st.events.count (Event.globalCall g p o n)) ∧
    (∀ e, extCount e (notifySubs snapshot st) =
      extCount e st + snapshot.count (Subscriber.ext e)) ∧
    (∀ c0, Subscriber.comp c0 ∉ snapshot →
      runCount c0 (notifySubs snapshot st) = runCount c0 st) ∧
    (∀ c0, Subscriber.comp c0 ∉ snapshot → Untouched c0 st →
      Untouched c0 (notifySubs snapshot st)) ∧
    (∀ x, x ∈ st.deferred → x ∈ (notifySubs snapshot st).deferred) ∧
    (∀ e, Subscriber.ext e ∈ snapshot → st.exts e = ExtBehavior.throws →
      e ∈ (notifySubs snapshot st).deferred) ∧
    (∀ c0, (st.comps c0).isSome = true →
      runCount c0 (notifySubs snapshot st) =
        runCount c0 st + snapshot.count (Subscriber.comp c0)) := by
  induction snapshot with
  | nil =>
      intro st
      refine ⟨pres_refl st, fun _ _ _ _ => rfl, ?_, fun _ _ => rfl,
        fun _ _ hu => hu, fun _ h => h, ?_, ?_⟩
      · intro e; simp [notifySubs]
      · intro e he; exact absurd he (List.not_mem_nil _)
      · intro c0 _; simp [notifySubs]
  | cons s rest ih =>
      intro st
      have hfold : notifySubs (s :: rest) st = notifySubs rest (notifyStep st s) := rfl
      rw [hfold]
      obtain ⟨p1, g1, x1, r1, t1, d1, w1, q1⟩ := ih (notifyStep st s)
      obtain ⟨sp, sg, sx, sr, stt, sd, sw, sq⟩ := notifyStep_pres st s
      refine ⟨pres_trans sp p1, ?_, ?_, ?_, ?_, ?_, ?_, ?_⟩
      · intro g p o n
        rw [g1 g p o n, sg g p o n]
      · intro e
        rw [x1 e, sx e, List.count_cons]
        by_cases he : s = Subscriber.ext e
        · simp [he]
          omega
        · simp [he]
      · intro c0 hnm
        have hs : s ≠ Subscriber.comp c0 := fun e => hnm (e ▸ List.mem_cons_self _ _)
        have hr : Subscriber.comp c0 ∉ rest := fun hm => hnm (List.mem_cons_of_mem _ hm)
        rw [r1 c0 hr, sr c0 hs]
      · intro c0 hnm hu
        have hs : s ≠ Subscriber.comp c0 := fun e => hnm (e ▸ List.mem_cons_self _ _)
        have hr : Subscriber.comp c0 ∉ rest := fun hm => hnm (List.mem_cons_of_mem _ hm)
        exact t1 c0 hr (stt c0 hs hu)
      · intro x hx
        exact d1 x (sd x hx)
      · intro e hm hth
        rcases List.mem_cons.1 hm with hh | hh
        · have hd : e ∈ (notifyStep st s).deferred := sw e hh.symm hth
          exact d1 e hd
        · have hth2 : (notifyStep st s).exts e = ExtBehavior.throws := by
            rw [sp.2.1]; exact hth
          exact w1 e hh hth2
      · intro c0 hsm
        have hsm2 : ((notifyStep st s).comps c0).isSome = true := by
          rw [sp.2.2.2.2.1]; exact hsm
        rw [q1 c0 hsm2, List.count_cons]
        by_cases hs : s = Subscriber.comp c0
        · rw [sq c0 hsm hs]
          simp [hs]
          omega
        · rw [sr c0 (fun e => hs e)]
          simp [hs]

theorem nextValue_not_fn (st : EngState) (sid : Nat) (v : JSVal)
    (h : v.isFn = false) : nextValue st sid v = v := by
  cases v <;> first | rfl | simp [JSVal.isFn] at h

theorem setValue_subs (sid : Nat) (v : JSVal) (st : EngState) (j : SigKey) :
    ((setValue sid v st).sigs j).subs = (st.sigs j).subs := by
  show (Function.update st.sigs (SigKey.plain sid) _ j).subs = _
  rw [Function.update_apply]
  split_ifs with hj
  · rw [hj]
  · rfl

theorem setValue_value (sid : Nat) (v : JSVal) (st : EngState) (j : SigKey) :
    ((setValue sid v st).sigs j).value =
      if j = SigKey.plain sid then v else (st.sigs j).value := by
  show (Function.update st.sigs (SigKey.plain sid) _ j).value = _
  rw [Function.update_apply]
  split_ifs with hj <;> rfl

theorem setValue_rest (sid : Nat) (v : JSVal) (st : EngState) :
    (setValue sid v st).events = st.events ∧
    (setValue sid v st).comps = st.comps ∧
    (setValue sid v st).deps = st.deps ∧
    (setValue sid v st).stack = st.stack ∧
    (setValue sid v st).states = st.states ∧
    (setValue sid v st).deferred = st.deferred ∧
    (setValue sid v st).exts = st.exts ∧
    (setValue sid v st).fenv = st.fenv :=
  ⟨rfl, rfl, rfl, rfl, rfl, rfl, rfl, rfl⟩

theorem setSignal_eq (sid : Nat) (arg : JSVal) (st : EngState) :
    setSignal sid arg st =
      (let next := nextValue st sid arg
       let st1 := setValue sid next st
       if (st.sigs (SigKey.plain sid)).value = next then (next, st1)
       else (next, notifySubs ((st1.sigs (SigKey.plain sid)).subs) st1)) := by
  cases arg <;> rfl

theorem setSignal_fst (sid : Nat) (arg : JSVal) (st : EngState) :
    (setSignal sid arg st).1 = nextValue st sid arg := by
  rw [setSignal_eq]
  show ((if _ then _ else _ : JSVal × EngState)).1 = _
  split_ifs <;> rfl

theorem setSignal_noop (sid : Nat) (arg : JSVal) (st : EngState)
    (h : (st.sigs (SigKey.plain sid)).value = nextValue st sid arg) :
    (setSignal sid arg st).2.events = st.events ∧
    (setSignal sid arg st).2.deferred = st.deferred ∧
    (∀ j, ((setSignal sid arg st).2.sigs j).subs = (st.sigs j).subs) ∧
    (∀ j, ((setSignal sid arg st).2.sigs j).value = (st.sigs j).value) ∧
    (setSignal sid arg st).2.stack = st.stack ∧
    (setSignal sid arg st).2.comps = st.comps := by
  rw [setSignal_eq]
  show ((if _ then _ else _ : JSVal × EngState)).2.events = _ ∧ _
  rw [if_pos h]
  refine ⟨rfl, rfl, ?_, ?_, rfl, rfl⟩
  · intro j
    exact setValue_subs sid _ st j
  · intro j
    rw [setValue_value]
    split_ifs with hj
    · rw [hj, ← h]
    · rfl

theorem setSignal_change (sid : Nat) (arg : JSVal) (st : EngState)
    (h : (st.sigs (SigKey.plain sid)).value ≠ nextValue st sid arg) :
    (setSignal sid arg st).2 =
      notifySubs ((st.sigs (SigKey.plain sid)).subs)
        (setValue sid (nextValue st sid arg) st) := by
  rw [setSignal_eq]
  show ((if _ then _ else _ : JSVal × EngState)).2 = _
  rw [if_neg h]
  show notifySubs (((setValue sid (nextValue st sid arg) st).sigs (SigKey.plain sid)).subs) _ = _
  rw [setValue_subs]

theorem globalFold_events (prop : String) (o v : JSVal) (l : List Nat) :
    ∀ st : EngState,
      ((l.foldl (globalStep prop o v) st).events).count (Event.globalCall 0 prop o v) =
        ((l.foldl (globalStep prop o v) st).events).count (Event.globalCall 0 prop o v) := by
  intro st; rfl

theorem globalFold_rest (prop : String) (o v : JSVal) (l : List Nat) :
    ∀ st : EngState,
      (l.foldl (globalStep prop o v) st).sigs = st.sigs ∧
      (l.foldl (globalStep prop o v) st).comps = st.comps ∧
      (l.foldl (globalStep prop o v) st).deps = st.deps ∧
      (l.foldl (globalStep prop o v) st).stack = st.stack ∧
      (l.foldl (globalStep prop o v) st).states = st.states ∧
      (l.foldl (globalStep prop o v) st).deferred = st.deferred ∧
      (l.foldl (globalStep prop o v) st).exts = st.exts ∧
      (l.foldl (globalStep prop o v) st).fenv = st.fenv := by
  induction l with
  | nil => intro st; exact ⟨rfl, rfl, rfl, rfl, rfl, rfl, rfl, rfl⟩
  | cons g rest ih =>
      intro st
      simpa [List.foldl_cons] using ih (globalStep prop o v st g)

theorem globalFold_count (prop : String) (o v : JSVal) (l : List Nat) :
    ∀ (st : EngState) (g : Nat),
      ((l.foldl (globalStep prop o v) st).events).count (Event.globalCall g prop o v) =
        st.events.count (Event.globalCall g prop o v) + l.count g := by
  induction l with
  | nil => intro st g; simp
  | cons g2 rest ih =>
      intro st g
      rw [List.foldl_cons, ih (globalStep prop o v st g2) g]
      show (Event.globalCall g2 prop o v :: st.events).count _ + _ = _
      rw [List.count_cons, List.count_cons]
      by_cases hg : g2 = g
      · simp [hg]
        omega
      · simp [hg]

theorem globalFold_count_other (prop : String) (o v : JSVal) (l : List Nat) :
    ∀ (st : EngState) (e : Event),
      (∀ g2, e ≠ Event.globalCall g2 prop o v) →
      ((l.foldl (globalStep prop o v) st).events).count e = st.events.count e := by
  induction l with
  | nil => intro st e _; rfl
  | cons g2 rest ih =>
      intro st e he
      rw [List.foldl_cons, ih (globalStep prop o v st g2) e he]
      exact count_cons_ne fun hh => he g2 hh.symm

theorem notifyGlobal_count (oid : Nat) (prop : String) (o v : JSVal)
    (st : EngState) (so : StateObj) (h : st.states oid = some so) (g : Nat) :
    ((notifyGlobal oid prop o v st).events).count (Event.globalCall g prop o v) =
      st.events.count (Event.globalCall g prop o v) + so.globalSubs.count g := by
  simp only [notifyGlobal, h]
  exact globalFold_count prop o v so.globalSubs st g

theorem notifyGlobal_count_other (oid : Nat) (prop : String) (o v : JSVal)
    (st : EngState) (e : Event) (he : ∀ g2, e ≠ Event.globalCall g2 prop o v) :
    ((notifyGlobal oid prop o v st).events).count e = st.events.count e := by
  cases h : st.states oid with
  | none => simp [notifyGlobal, h]
  | some so =>
      simp only [notifyGlobal, h]
      exact globalFold_count_other prop o v so.globalSubs st e he

theorem notifyGlobal_rest (oid : Nat) (prop : String) (o v : JSVal) (st : EngState) :
    (notifyGlobal oid prop o v st).sigs = st.sigs ∧
    (notifyGlobal oid prop o v st).comps = st.comps ∧
    (notifyGlobal oid prop o v st).deps = st.deps ∧
    (notifyGlobal oid prop o v st).stack = st.stack ∧
    (notifyGlobal oid prop o v st).states = st.states ∧
    (notifyGlobal oid prop o v st).deferred = st.deferred := by
  cases h : st.states oid with
  | none => simp [notifyGlobal, h]
  | some so =>
      simp only [notifyGlobal, h]
      have hh := globalFold_rest prop o v so.globalSubs st
      exact ⟨hh.1, hh.2.1, hh.2.2.1, hh.2.2.2.1, hh.2.2.2.2.1, hh.2.2.2.2.2.1⟩

theorem applyOp_untouched (cid : Nat) (st : EngState) (op : WriteOp)
    (hu : Untouched cid st) :
    Untouched cid (applyOp st op) ∧
    runCount cid (applyOp st op) = runCount cid st := by
  obtain ⟨husubs, hustk⟩ := hu
  cases op with
  | sigWrite sid a =>
      show Untouched cid (setSignal sid a st).2 ∧
        runCount cid (setSignal sid a st).2 = runCount cid st
      by_cases h : (st.sigs (SigKey.plain sid)).value = nextValue st sid a
      · obtain ⟨he, hd, hsubs, hval, hstk, hcm⟩ := setSignal_noop sid a st h
        refine ⟨⟨?_, ?_⟩, ?_⟩
        · intro j; rw [hsubs j]; exact husubs j
        · rw [hstk]; exact hustk
        · unfold runCount; rw [he]
      · rw [setSignal_change sid a st h]
        have hu1 : Untouched cid (setValue sid (nextValue st sid a) st) := by
          refine ⟨?_, hustk⟩
          intro j
          rw [setValue_subs]
          exact husubs j
        have hnm : Subscriber.comp cid ∉ (st.sigs (SigKey.plain sid)).subs :=
          husubs (SigKey.plain sid)
        obtain ⟨p1, g1, x1, r1, t1, d1, w1, q1⟩ :=
          notifySubs_pres ((st.sigs (SigKey.plain sid)).subs)
            (setValue sid (nextValue st sid a) st)
        refine ⟨t1 cid hnm hu1, ?_⟩
        rw [r1 cid hnm]
        unfold runCount
        rw [(setValue_rest sid (nextValue st sid a) st).1]
  | stWrite oid prop v =>
      show Untouched cid (stateSet oid prop v st) ∧
        runCount cid (stateSet oid prop v st) = runCount cid st
      cases hso : st.states oid with
      | none =>
          simp only [stateSet, hso]
          exact ⟨⟨husubs, hustk⟩, trivial⟩
      | some so =>
          simp only [stateSet, hso]
          have step2 : ∀ st2 : EngState, Untouched cid st2 →
              runCount cid st2 = runCount cid st →
              Untouched cid (notifyGlobal oid prop (alGet so.backing prop) v st2) ∧
              runCount cid (notifyGlobal oid prop (alGet so.backing prop) v st2) =
                runCount cid st := by
            intro st2 hu2 hr2
            obtain ⟨ng_sg, ng_cm, ng_dp, ng_stk, ng_sx, ng_df⟩ :=
              notifyGlobal_rest oid prop (alGet so.backing prop) v st2
            refine ⟨⟨?_, ?_⟩, ?_⟩
            · intro j; rw [ng_sg]; exact hu2.1 j
            · rw [ng_stk]; exact hu2.2
            · unfold runCount
              rw [notifyGlobal_count_other _ _ _ _ _ _ (by simp)]
              exact hr2
          set so2 : StateObj := { so with backing := alSet so.backing prop v } with hso2
          set st1 : EngState :=
            { st with states := Function.update st.states oid (some so2) } with hst1
          have hu1 : Untouched cid st1 := ⟨husubs, hustk⟩
          split_ifs with heq hps
          · exact ⟨⟨husubs, hustk⟩, rfl⟩
          · have hnm : Subscriber.comp cid ∉ (st1.sigs (SigKey.propSig oid prop)).subs :=
              husubs _
            obtain ⟨p1, g1, x1, r1, t1, d1, w1, q1⟩ :=
              notifySubs_pres ((st1.sigs (SigKey.propSig oid prop)).subs) st1
            exact step2 _ (t1 cid hnm hu1) (r1 cid hnm)
          · exact step2 st1 hu1 rfl

theorem applyOps_untouched (cid : Nat) (ops : List WriteOp) : ∀ st : EngState,
    Untouched cid st →
    Untouched cid (applyOps ops st) ∧
    runCount cid (applyOps ops st) = runCount cid st := by
  induction ops with
  | nil => intro st hu; exact ⟨hu, rfl⟩
  | cons op rest ih =>
      intro st hu
      obtain ⟨h1, h2⟩ := applyOp_untouched cid st op hu
      obtain ⟨h3, h4⟩ := ih (applyOp st op) h1
      exact ⟨h3, h4.trans h2⟩

theorem trackDependency_inv (cid : Nat) (sk : SigKey) (st : EngState)
    (hinv : TrackInv cid st)
    (hdecl : ∀ oid p, sk = SigKey.propSig oid p → propSigDeclared st oid p) :
    TrackInv cid (trackDependency cid sk st) ∧
    (∀ k, k ∈ (trackDependency cid sk st).deps cid ↔ (k ∈ st.deps cid ∨ k = sk)) := by
  obtain ⟨h1, h2⟩ := hinv
  have hdeps : ∀ k, k ∈ (trackDependency cid sk st).deps cid ↔
      (k ∈ st.deps cid ∨ k = sk) := by
    intro k
    rw [trackDependency_deps]
    rw [if_pos rfl]
    exact mem_addIfAbsent k sk (st.deps cid)
  refine ⟨⟨?_, ?_⟩, hdeps⟩
  · intro k
    rw [trackDependency_sigs, hdeps k]
    split_ifs with hk
    · subst hk
      constructor
      · intro _; exact Or.inr rfl
      · intro _
        exact (mem_addIfAbsent _ _ _).2 (Or.inr rfl)
    · rw [h1 k]
      constructor
      · exact Or.inl
      · intro hh
        rcases hh with hh | hh
        · exact hh
        · exact absurd hh hk
  · intro oid p hp
    rcases (hdeps (SigKey.propSig oid p)).1 hp with hh | hh
    · obtain ⟨so, hso, hm⟩ := h2 oid p hh
      exact ⟨so, by rw [(trackDependency_rest cid sk st).2.2.2.2.1]; exact hso, hm⟩
    · obtain ⟨so, hso, hm⟩ := hdecl oid p hh.symm
      exact ⟨so, by rw [(trackDependency_rest cid sk st).2.2.2.2.1]; exact hso, hm⟩

theorem ensurePropSig_inv (cid : Nat) (oid : Nat) (p : String) (st : EngState)
    (so : StateObj) (hso : st.states oid = some so)
    (hinv : TrackInv cid st) :
    TrackInv cid (ensurePropSig oid p st) ∧
    propSigDeclared (ensurePropSig oid p st) oid p ∧
    (ensurePropSig oid p st).deps = st.deps := by
  obtain ⟨h1, h2⟩ := hinv
  obtain ⟨ee, ec, ed, edeps, estk, eex, ef⟩ := ensurePropSig_rest oid p st
  by_cases hmem : p ∈ so.propSigs
  · have heq : ensurePropSig oid p st = st := by
      simp [ensurePropSig, hso, hmem]
    rw [heq]
    exact ⟨⟨h1, h2⟩, ⟨so, hso, hmem⟩, rfl⟩
  · have hdecl2 : ∀ oid2 p2, propSigDeclared st oid2 p2 →
        propSigDeclared (ensurePropSig oid p st) oid2 p2 := by
      rintro oid2 p2 ⟨so2, hso2, hm2⟩
      by_cases ho : oid2 = oid
      · subst ho
        have hseq : so2 = so := by
          rw [hso2] at hso
          exact Option.some.inj hso
        subst hseq
        refine ⟨{ so2 with propSigs := so2.propSigs ++ [p] }, ?_,
          List.mem_append_left _ hm2⟩
        rw [ensurePropSig_states]
        simp [hso2, hmem]
      · refine ⟨so2, ?_, hm2⟩
        rw [ensurePropSig_states, if_neg ho]
        exact hso2
    refine ⟨⟨?_, ?_⟩, ?_, edeps⟩
    · intro k
      by_cases hk : k = SigKey.propSig oid p
      · subst hk
        have hsub : ((ensurePropSig oid p st).sigs (SigKey.propSig oid p)).subs = [] := by
          simp [ensurePropSig, hso, hmem, Function.update_apply]
        rw [hsub]
        rw [congrFun edeps cid]
        constructor
        · intro hh; exact absurd hh (List.not_mem_nil _)
        · intro hh
          obtain ⟨so3, hso3, hm3⟩ := h2 oid p hh
          rw [hso] at hso3
          cases hso3
          exact absurd hm3 hmem
      · rw [ensurePropSig_sigs_other oid p st k hk, congrFun edeps cid]
        exact h1 k
    · intro oid2 p2 hp
      rw [congrFun edeps cid] at hp
      exact hdecl2 oid2 p2 (h2 oid2 p2 hp)
    · refine ⟨{ so with propSigs := so.propSigs ++ [p] }, ?_, ?_⟩
      · rw [ensurePropSig_states]
        simp [hso, hmem]
      · exact List.mem_append_right _ (List.mem_singleton.2 rfl)

theorem interp_track (cid : Nat) (b : Body) : ∀ st : EngState,
    st.stack.head? = some cid → TrackInv cid st →
    TrackInv cid (interpBody b st).2.2 ∧
    (∀ k, k ∈ (interpBody b st).2.2.deps cid ↔
      (k ∈ st.deps cid ∨ k ∈ (interpBody b st).2.1)) := by
  induction b with
  | pure v =>
      intro st _ hinv
      refine ⟨hinv, ?_⟩
      intro k
      show k ∈ st.deps cid ↔ k ∈ st.deps cid ∨ k ∈ ([] : List SigKey)
      simp
  | emit v rest ih =>
      intro st hhd hinv
      have h2 := ih { st with events := Event.emitted v :: st.events } hhd hinv
      exact h2
  | read sid k ih =>
      intro st hhd hinv
      rw [interpBody_read_eq]
      cases hs : st.stack with
      | nil => rw [hs] at hhd; exact absurd hhd (by simp)
      | cons a rest =>
          have ha : a = cid := by
            rw [hs] at hhd
            simpa using hhd
          subst ha
          have hgs : (getSignal sid st).2.2 = trackDependency a (SigKey.plain sid) st := by
            rw [getSignal_state, hs]
          have hgr : (getSignal sid st).2.1 = [SigKey.plain sid] := by
            simp [getSignal, hs]
          obtain ⟨tinv, tdeps⟩ :=
            trackDependency_inv a (SigKey.plain sid) st hinv (by intro oid p h; cases h)
          have hhd2 : (getSignal sid st).2.2.stack.head? = some a := by
            rw [hgs, (trackDependency_rest a (SigKey.plain sid) st).1, hs]
            rfl
          have hinv2 : TrackInv a (getSignal sid st).2.2 := by rw [hgs]; exact tinv
          obtain ⟨iinv, ideps⟩ := ih (getSignal sid st).1 (getSignal sid st).2.2 hhd2 hinv2
          refine ⟨iinv, ?_⟩
          intro j
          rw [ideps j, hgr]
          have : j ∈ (getSignal sid st).2.2.deps a ↔ (j ∈ st.deps a ∨ j = SigKey.plain sid) := by
            rw [hgs]; exact tdeps j
          rw [this]
          simp [List.mem_cons, or_assoc]
  | readProp oid prop k ih =>
      intro st hhd hinv
      rw [interpBody_readProp_eq]
      cases hso : st.states oid with
      | none =>
          have hgs : stateGet oid prop st = (JSVal.undef, [], st) := by
            simp [stateGet, hso]
          rw [hgs]
          obtain ⟨iinv, ideps⟩ := ih JSVal.undef st hhd hinv
          refine ⟨iinv, ?_⟩
          intro j
          rw [ideps j]
          simp
      | some so =>
          by_cases h1 : prop = "__isState"
          · have hgs : stateGet oid prop st = (JSVal.bool true, [], st) := by
              simp [stateGet, hso, h1]
            rw [hgs]
            obtain ⟨iinv, ideps⟩ := ih (JSVal.bool true) st hhd hinv
            exact ⟨iinv, fun j => by rw [ideps j]; simp⟩
          · by_cases h2 : prop = "subscribe"
            · have hgs : stateGet oid prop st = (JSVal.closureV "subscribe", [], st) := by
                simp [stateGet, hso, h1, h2]
              rw [hgs]
              obtain ⟨iinv, ideps⟩ := ih (JSVal.closureV "subscribe") st hhd hinv
              exact ⟨iinv, fun j => by rw [ideps j]; simp⟩
            · by_cases h3 : prop = "inspect"
              · have hgs : stateGet oid prop st = (JSVal.closureV "inspect", [], st) := by
                  simp [stateGet, hso, h1, h2, h3]
                rw [hgs]
                obtain ⟨iinv, ideps⟩ := ih (JSVal.closureV "inspect") st hhd hinv
                exact ⟨iinv, fun j => by rw [ideps j]; simp⟩
              · cases hs : st.stack with
                | nil => rw [hs] at hhd; exact absurd hhd (by simp)
                | cons a rest =>
                    have ha : a = cid := by
                      rw [hs] at hhd
                      simpa using hhd
                    subst ha
                    have hgs : (stateGet oid prop st).2.2 =
                        trackDependency a (SigKey.propSig oid prop)
                          (ensurePropSig oid prop st) := by
                      simp [stateGet, hso, h1, h2, h3, hs]
                    have hgr : (stateGet oid prop st).2.1 = [SigKey.propSig oid prop] := by
                      simp [stateGet, hso, h1, h2, h3, hs]
                    obtain ⟨einv, edecl, edeps⟩ :=
                      ensurePropSig_inv a oid prop st so hso hinv
                    obtain ⟨tinv, tdeps⟩ :=
                      trackDependency_inv a (SigKey.propSig oid prop)
                        (ensurePropSig oid prop st) einv
                        (by
                          intro oid2 p2 he
                          cases he
                          exact edecl)
                    have hhd2 : (stateGet oid prop st).2.2.stack.head? = some a := by
                      rw [hgs, (trackDependency_rest _ _ _).1,
                        (ensurePropSig_rest oid prop st).2.2.2.2.1, hs]
                      rfl
                    have hinv2 : TrackInv a (stateGet oid prop st).2.2 := by
                      rw [hgs]; exact tinv
                    obtain ⟨iinv, ideps⟩ :=
                      ih (stateGet oid prop st).1 (stateGet oid prop st).2.2 hhd2 hinv2
                    refine ⟨iinv, ?_⟩
                    intro j
                    rw [ideps j, hgr]
                    have hstep : j ∈ (stateGet oid prop st).2.2.deps a ↔
                        (j ∈ st.deps a ∨ j = SigKey.propSig oid prop) := by
                      rw [hgs, tdeps j, congrFun edeps a]
                    rw [hstep]
                    simp [List.mem_cons, or_assoc]

theorem runCompAux_fst (cid : Nat) (st : EngState) (c : Comp)
    (h : st.comps cid = some c) :
    (runCompAux cid st).1 = (interpBody c.body (preBody cid st)).2.1 := by
  simp only [runCompAux, h, preBody]

theorem runComp_parts (cid : Nat) (st : EngState) (c : Comp)
    (h : st.comps cid = some c) :
    (runComp cid st).sigs = (interpBody c.body (preBody cid st)).2.2.sigs ∧
    (runComp cid st).deps = (interpBody c.body (preBody cid st)).2.2.deps := by
  have e := runComp_some_eq cid st c h
  rw [e]
  constructor
  · show (storeResult cid (interpBody c.body (preBody cid st)).1
      (interpBody c.body (preBody cid st)).2.2).sigs = _
    exact (storeResult_rest cid _ _).1
  · show (storeResult cid (interpBody c.body (preBody cid st)).1
      (interpBody c.body (preBody cid st)).2.2).deps = _
    exact (storeResult_rest cid _ _).2.1

theorem computedGet_clean (cid : Nat) (st : EngState) (c : Comp)
    (h : st.comps cid = some c) (hd : c.dirty = false) :
    computedGet cid st = (c.cached, st) := by
  simp [computedGet, h, hd]

theorem storeResult_comps_other (cid : Nat) (r : JSVal) (st : EngState) (x : Nat)
    (hx : x ≠ cid) :
    (storeResult cid r st).comps x = st.comps x := by
  unfold storeResult
  split
  · rfl
  · split <;>
      first
        | rfl
        | (dsimp only
           rw [Function.update_apply, if_neg hx])

theorem runCleanup_comps_other (cid : Nat) (st : EngState) (x : Nat)
    (hx : x ≠ cid) :
    (runCleanup cid st).comps x = st.comps x := by
  rcases runCleanup_comps cid st x with h | ⟨he, _, _, _⟩
  · exact h
  · exact absurd he hx

theorem runComp_comps_other (cid : Nat) (st : EngState) (x : Nat)
    (hx : x ≠ cid) :
    (runComp cid st).comps x = st.comps x := by
  cases h : st.comps cid with
  | none => rw [runComp_none cid st h]
  | some c =>
      rw [runComp_some_eq cid st c h]
      show (storeResult cid (interpBody c.body (preBody cid st)).1
        (interpBody c.body (preBody cid st)).2.2).comps x = _
      rw [storeResult_comps_other cid _ _ x hx,
        (interp_pres c.body (preBody cid st)).2.1]
      show (runCleanup cid (unsubscribeAll cid st)).comps x = _
      rw [runCleanup_comps_other cid _ x hx, (unsubscribeAll_rest cid st).2.1]

theorem runComp_cleanComputed (cid c0 : Nat) (st : EngState)
    (h : CleanComputed c0 st) : CleanComputed c0 (runComp cid st) := by
  obtain ⟨c, hc, hd, hk⟩ := h
  by_cases hx : c0 = cid
  · subst hx
    obtain ⟨c2, hc2, hd2, hk2⟩ := runComp_computed c0 st c hc hk
    exact ⟨c2, hc2, hd2, hk2⟩
  · exact ⟨c, by rw [runComp_comps_other cid st c0 hx]; exact hc, hd, hk⟩

theorem notifySubs_cleanComputed (snapshot : List Subscriber) (c0 : Nat) :
    ∀ st : EngState, CleanComputed c0 st →
      CleanComputed c0 (notifySubs snapshot st) := by
  induction snapshot with
  | nil => intro st h; exact h
  | cons s rest ih =>
      intro st h
      show CleanComputed c0 (notifySubs rest (notifyStep st s))
      apply ih
      cases s with
      | comp cid => exact runComp_cleanComputed cid c0 st h
      | ext eid =>
          obtain ⟨c, hc, hd, hk⟩ := h
          cases hb : st.exts eid with
          | ok =>
              refine ⟨c, ?_, hd, hk⟩
              show ((match st.exts eid with
                | ExtBehavior.ok => { st with events := Event.extCall eid :: st.events }
                | ExtBehavior.throws =>
                    { st with events := Event.extCall eid :: st.events,
                              deferred := eid :: st.deferred }) : EngState).comps c0 = _
              rw [hb]
              exact hc
          | throws =>
              refine ⟨c, ?_, hd, hk⟩
              show ((match st.exts eid with
                | ExtBehavior.ok => { st with events := Event.extCall eid :: st.events }
                | ExtBehavior.throws =>
                    { st with events := Event.extCall eid :: st.events,
                              deferred := eid :: st.deferred }) : EngState).comps c0 = _
              rw [hb]
              exact hc

theorem applyOp_cleanComputed (c0 : Nat) (st : EngState) (op : WriteOp)
    (h : CleanComputed c0 st) : CleanComputed c0 (applyOp st op) := by
  cases op with
  | sigWrite sid a =>
      show CleanComputed c0 (setSignal sid a st).2
      by_cases hc : (st.sigs (SigKey.plain sid)).value = nextValue st sid a
      · obtain ⟨c, hcc, hd, hk⟩ := h
        obtain ⟨_, _, _, _, _, hcm⟩ := setSignal_noop sid a st hc
        exact ⟨c, by rw [hcm]; exact hcc, hd, hk⟩
      · rw [setSignal_change sid a st hc]
        apply notifySubs_cleanComputed
        obtain ⟨c, hcc, hd, hk⟩ := h
        exact ⟨c, by rw [(setValue_rest sid _ st).2.1]; exact hcc, hd, hk⟩
  | stWrite oid prop v =>
      show CleanComputed c0 (stateSet oid prop v st)
      obtain ⟨c, hcc, hd, hk⟩ := h
      cases hso : st.states oid with
      | none => simp only [stateSet, hso]; exact ⟨c, hcc, hd, hk⟩
      | some so =>
          simp only [stateSet, hso]
          have hng : ∀ st2 : EngState, CleanComputed c0 st2 →
              CleanComputed c0 (notifyGlobal oid prop (alGet so.backing prop) v st2) := by
            intro st2 ⟨c2, hc2, hd2, hk2⟩
            exact ⟨c2, by rw [(notifyGlobal_rest oid prop _ v st2).2.1]; exact hc2, hd2, hk2⟩
          split_ifs with heq hps
          · exact ⟨c, hcc, hd, hk⟩
          · apply hng
            apply notifySubs_cleanComputed
            exact ⟨c, hcc, hd, hk⟩
          · apply hng
            exact ⟨c, hcc, hd, hk⟩

theorem applyOps_cleanComputed (c0 : Nat) (ops : List WriteOp) :
    ∀ st : EngState, CleanComputed c0 st →
      CleanComputed c0 (applyOps ops st) := by
  induction ops with
  | nil => intro st h; exact h
  | cons op rest ih =>
      intro st h
      exact ih (applyOp st op) (applyOp_cleanComputed c0 st op h)

/-- C8: passing a non-function to `createEffect` or `createComputed` is
rejected immediately at call time by throwing, before any run cycle,
registry mutation, or deferred work occurs (the call yields only the
error, leaving no successor state). -/
theorem create_rejects_non_function :
    (∀ (v : JSVal) (st : EngState),
      createEffect (CreateArg.nonFunc v) st =
        Except.error "createEffect: fn must be a function") ∧
    (∀ (v : JSVal) (st : EngState),
      createComputed (CreateArg.nonFunc v) st =
        Except.error "createComputed: fn must be a function") :=
  ⟨fun _ _ => rfl, fun _ _ => rfl⟩

/-- C9 counterexample: for the self-returning updater
`function f(prev) { return f }`, `set(f)` stores the function value `f`
itself as the signal's value, so `set` can make a signal's value a
function, contrary to the claim. -/
theorem set_function_arg_stored_cex :
    ((setSignal 0 (JSVal.fn 0) c9St).2.sigs (SigKey.plain 0)).value = JSVal.fn 0 ∧
    ((setSignal 0 (JSVal.fn 0) c9St).2.sigs (SigKey.plain 0)).value.isFn = true := by
  constructor
  · rfl
  · rfl

/-- C9 (amended): a function argument passed to `set` is never stored
as given; it is unconditionally invoked as an updater on the previous
value, so after `set(f)` the signal's value — and `set`'s return
value — is `f(previousValue)` (which can itself be a function, and is
`f` exactly when `f(previousValue) === f`). -/
theorem set_function_arg_applies_updater (sid fid : Nat) (st : EngState) :
    ((setSignal sid (JSVal.fn fid) st).2.sigs (SigKey.plain sid)).value =
      st.fenv fid ((st.sigs (SigKey.plain sid)).value) ∧
    (setSignal sid (JSVal.fn fid) st).1 =
      st.fenv fid ((st.sigs (SigKey.plain sid)).value) := by
  have hnv : nextValue st sid (JSVal.fn fid) =
      st.fenv fid ((st.sigs (SigKey.plain sid)).value) := rfl
  refine ⟨?_, by rw [setSignal_fst, hnv]⟩
  by_cases h : (st.sigs (SigKey.plain sid)).value = nextValue st sid (JSVal.fn fid)
  · obtain ⟨_, _, _, hval, _, _⟩ := setSignal_noop sid (JSVal.fn fid) st h
    rw [hval, ← hnv, h]
  · rw [setSignal_change sid (JSVal.fn fid) st h]
    obtain ⟨np, _⟩ := notifySubs_pres
      (((st.sigs (SigKey.plain sid)).subs))
      (setValue sid (nextValue st sid (JSVal.fn fid)) st)
    have hv := np.2.2.2.1 sid
    rw [hv, setValue_value, if_pos rfl, hnv]

/-- C10: the `$state` proxy `get` trap intercepts the reserved name
`__isState` before the backing record is consulted: reading it returns
`true` with no state change, so a field named `__isState` on the
initial object can never be observed through the proxy; concretely, for
`$state({__isState: 42})` the read yields `true`, not `42`. -/
theorem state_isState_intercepted (oid : Nat) (st : EngState) (so : StateObj)
    (hso : st.states oid = some so) :
    ((stateGet oid "__isState" st).1 = JSVal.bool true ∧
     (stateGet oid "__isState" st).2.2 = st) ∧
    (stateGet 0 "__isState" hiddenSt).1 = JSVal.bool true ∧
    alGet (backingOf hiddenSt 0) "__isState" = JSVal.num 42 := by
  refine ⟨⟨?_, ?_⟩, rfl, rfl⟩
  · simp [stateGet, hso]
  · simp [stateGet, hso]

/-- C10 witness: the interception applied to the concrete `$state`
object whose backing record defines `__isState`. -/
theorem state_isState_intercepted_witness :
    ((stateGet 0 "__isState" hiddenSt).1 = JSVal.bool true ∧
     (stateGet 0 "__isState" hiddenSt).2.2 = hiddenSt) ∧
    (stateGet 0 "__isState" hiddenSt).1 = JSVal.bool true ∧
    alGet (backingOf hiddenSt 0) "__isState" = JSVal.num 42 :=
  state_isState_intercepted 0 hiddenSt
    { backing := [("__isState", JSVal.num 42)] } rfl

/-- C2: `set` computes the next value (applying a function argument as
updater to the previous value) and returns it; when the next value is
reference-equal to the previous one it returns without notifying
anyone (the trace is unchanged); hence `set(v)` immediately followed by
`set(v)` with the same non-function value notifies each subscribed
listener exactly once in total (for the first call only) when `v`
differs from the initial value, and setting a signal to its current
value never notifies. -/
theorem set_noop_on_equal_write (sid : Nat) (st : EngState) (v : JSVal) (e : Nat) :
    (∀ arg, (setSignal sid arg st).1 = nextValue st sid arg) ∧
    (∀ arg, nextValue st sid arg = (st.sigs (SigKey.plain sid)).value →
      (setSignal sid arg st).2.events = st.events) ∧
    (v.isFn = false → v ≠ (st.sigs (SigKey.plain sid)).value →
      extCount e (setSignal sid v (setSignal sid v st).2).2 =
        extCount e st + ((st.sigs (SigKey.plain sid)).subs).count (Subscriber.ext e)) := by
  refine ⟨fun arg => setSignal_fst sid arg st, ?_, ?_⟩
  · intro arg h
    exact (setSignal_noop sid arg st h.symm).1
  · intro hfn hne
    have hnv : nextValue st sid v = v := nextValue_not_fn st sid v hfn
    have hchg : (st.sigs (SigKey.plain sid)).value ≠ nextValue st sid v := by
      rw [hnv]; exact fun hh => hne hh.symm
    rw [setSignal_change sid v st hchg]
    set stA := notifySubs ((st.sigs (SigKey.plain sid)).subs)
      (setValue sid (nextValue st sid v) st) with hstA
    obtain ⟨np, ng, nx, nr, nt, nd, nw, nq⟩ := notifySubs_pres
      ((st.sigs (SigKey.plain sid)).subs)
      (setValue sid (nextValue st sid v) st)
    have hvalA : (stA.sigs (SigKey.plain sid)).value = v := by
      rw [hstA, np.2.2.2.1 sid, setValue_value, if_pos rfl, hnv]
    have hfenvA : stA.fenv = st.fenv := by
      rw [hstA, np.2.2.1]
      rfl
    have hnva : nextValue stA sid v = v := nextValue_not_fn stA sid v hfn
    have hnoop : (stA.sigs (SigKey.plain sid)).value = nextValue stA sid v := by
      rw [hnva, hvalA]
    obtain ⟨heA, _, _, _, _, _⟩ := setSignal_noop sid v stA hnoop
    unfold extCount
    rw [heA, hstA]
    have hx := nx e
    unfold extCount at hx
    rw [hx]
    rfl

/-- C2 witness: on a concrete signal (value `0`, one listener),
setting the current value appends no events, and `set(5); set(5)`
notifies the listener exactly once. -/
theorem set_noop_on_equal_write_witness :
    (setSignal 0 (JSVal.num 0) dblSetSt).2.events = dblSetSt.events ∧
    extCount 1 (setSignal 0 (JSVal.num 5) (setSignal 0 (JSVal.num 5) dblSetSt).2).2 =
      extCount 1 dblSetSt +
        ((dblSetSt.sigs (SigKey.plain 0)).subs).count (Subscriber.ext 1) := by
  have h := set_noop_on_equal_write 0 dblSetSt (JSVal.num 5) 1
  exact ⟨h.2.1 (JSVal.num 0) (by decide), h.2.2 (by decide) (by decide)⟩

/-- C3: immediately after `createComputed` — and after any further
sequence of top-level writes — the computed's dirty flag is clear, so
calling its getter twice with nothing in between serves the cached
value both times, changes no state, and invokes the underlying
function zero times (hence at most once across both calls); and in the
concrete scenario, `createSignal(5)` with `createComputed(() => g()*2)`
yields `10` right after creation and `14` after `s(7)`. -/
theorem computed_caches_until_dependency_write :
    (∀ (b : Body) (st : EngState) (cid : Nat) (st1 : EngState),
      createComputed (CreateArg.func b) st = Except.ok (cid, st1) →
      ∀ ops : List WriteOp,
        ∃ c, (applyOps ops st1).comps cid = some c ∧ c.dirty = false ∧
          computedGet cid (applyOps ops st1) = (c.cached, applyOps ops st1) ∧
          computedGet cid (computedGet cid (applyOps ops st1)).2 =
            (c.cached, applyOps ops st1) ∧
          runCount cid (computedGet cid (computedGet cid (applyOps ops st1)).2).2 =
            runCount cid (applyOps ops st1)) ∧
    (computedGet compP.1 compP.2).1 = JSVal.num 10 ∧
    (computedGet compP.1 compSt2).1 = JSVal.num 14 := by
  refine ⟨?_, by decide, by decide⟩
  intro b st cid st1 h ops
  have h2 : (Except.ok (st.nextComp,
      runComp st.nextComp
        { st with nextComp := st.nextComp + 1,
                  comps := Function.update st.comps st.nextComp
                    (some { body := b, kind := CompKind.computed }) }) :
      Except String (Nat × EngState)) = Except.ok (cid, st1) := h
  have h3 := Except.ok.inj h2
  have hcid : st.nextComp = cid := congrArg Prod.fst h3
  have hst1 : runComp st.nextComp
      { st with nextComp := st.nextComp + 1,
                comps := Function.update st.comps st.nextComp
                  (some { body := b, kind := CompKind.computed }) } = st1 :=
    congrArg Prod.snd h3
  have hclean : CleanComputed cid st1 := by
    rw [← hst1, ← hcid]
    obtain ⟨c2, hc2, hd2, hk2⟩ :=
      runComp_computed st.nextComp
        { st with nextComp := st.nextComp + 1,
                  comps := Function.update st.comps st.nextComp
                    (some { body := b, kind := CompKind.computed }) }
        { body := b, kind := CompKind.computed }
        (Function.update_same st.nextComp _ st.comps) rfl
    exact ⟨c2, hc2, hd2, hk2⟩
  obtain ⟨c, hc, hd, hk⟩ := applyOps_cleanComputed cid ops st1 hclean
  have g1 := computedGet_clean cid (applyOps ops st1) c hc hd
  refine ⟨c, hc, hd, g1, ?_, ?_⟩
  · rw [g1]
    exact g1
  · rw [g1, g1]

/-- C3 witness: the general statement applied to the concrete computed
`createComputed(() => g()*2)` over `createSignal(5)` with no further
writes. -/
theorem computed_caches_witness :
    ∃ c, (applyOps [] compP.2).comps compP.1 = some c ∧ c.dirty = false ∧
      computedGet compP.1 (applyOps [] compP.2) = (c.cached, applyOps [] compP.2) ∧
      computedGet compP.1 (computedGet compP.1 (applyOps [] compP.2)).2 =
        (c.cached, applyOps [] compP.2) ∧
      runCount compP.1
          (computedGet compP.1 (computedGet compP.1 (applyOps [] compP.2)).2).2 =
        runCount compP.1 (applyOps [] compP.2) :=
  computed_caches_until_dependency_write.1 dblBody compSt0 compP.1 compP.2 rfl []

/-- C4: when a write changes a signal's value and one subscribed
listener throws during the notification, every subscriber in the
delivery snapshot is still invoked for that write (each external
listener once per registration, each registered computation re-run),
`set` itself returns the new value without propagating the exception,
and the throwing listener's exception is re-surfaced asynchronously via
the deferred queue rather than swallowed. -/
theorem set_listener_isolation (sid : Nat) (st : EngState) (e1 e2 : Nat)
    (arg : JSVal)
    (hchg : (st.sigs (SigKey.plain sid)).value ≠ nextValue st sid arg)
    (h1 : Subscriber.ext e1 ∈ (st.sigs (SigKey.plain sid)).subs)
    (hth : st.exts e1 = ExtBehavior.throws)
    (h2m : Subscriber.ext e2 ∈ (st.sigs (SigKey.plain sid)).subs) :
    (setSignal sid arg st).1 = nextValue st sid arg ∧
    extCount e2 (setSignal sid arg st).2 =
      extCount e2 st + ((st.sigs (SigKey.plain sid)).subs).count (Subscriber.ext e2) ∧
    1 ≤ ((st.sigs (SigKey.plain sid)).subs).count (Subscriber.ext e2) ∧
    (∀ c, Subscriber.comp c ∈ (st.sigs (SigKey.plain sid)).subs →
      (st.comps c).isSome = true →
      runCount c (setSignal sid arg st).2 =
        runCount c st + ((st.sigs (SigKey.plain sid)).subs).count (Subscriber.comp c)) ∧
    e1 ∈ (setSignal sid arg st).2.deferred := by
  rw [setSignal_change sid arg st hchg]
  obtain ⟨np, ng, nx, nr, nt, nd, nw, nq⟩ := notifySubs_pres
    ((st.sigs (SigKey.plain sid)).subs)
    (setValue sid (nextValue st sid arg) st)
  refine ⟨?_, ?_, ?_, ?_, ?_⟩
  · show (setSignal sid arg st).1 = _
    exact setSignal_fst sid arg st
  · have hx := nx e2
    unfold extCount at hx ⊢
    rw [hx]
    rfl
  · exact List.one_le_count_iff.2 h2m
  · intro c hcm hsm
    have hsm2 : ((setValue sid (nextValue st sid arg) st).comps c).isSome = true := hsm
    have hq := nq c hsm2
    unfold runCount at hq ⊢
    rw [hq]
    rfl
  · exact nw e1 h1 hth

/-- C4 witness: a concrete signal with two external listeners, the
first of which throws. -/
theorem set_listener_isolation_witness :
    (setSignal 0 (JSVal.num 5) isoSigSt).1 = nextValue isoSigSt 0 (JSVal.num 5) ∧
    extCount 2 (setSignal 0 (JSVal.num 5) isoSigSt).2 =
      extCount 2 isoSigSt +
        ((isoSigSt.sigs (SigKey.plain 0)).subs).count (Subscriber.ext 2) ∧
    1 ≤ ((isoSigSt.sigs (SigKey.plain 0)).subs).count (Subscriber.ext 2) ∧
    (∀ c, Subscriber.comp c ∈ (isoSigSt.sigs (SigKey.plain 0)).subs →
      (isoSigSt.comps c).isSome = true →
      runCount c (setSignal 0 (JSVal.num 5) isoSigSt).2 =
        runCount c isoSigSt +
          ((isoSigSt.sigs (SigKey.plain 0)).subs).count (Subscriber.comp c)) ∧
    1 ∈ (setSignal 0 (JSVal.num 5) isoSigSt).2.deferred :=
  set_listener_isolation 0 isoSigSt 1 2 (JSVal.num 5)
    (by decide) (by decide) (by decide) (by decide)

/-- C5: calling an effect's disposer removes it from the subscriber set
of every signal, empties its registry entry, invokes the pending
cleanup one final time, and after disposal no sequence of writes to
signals or `$state` properties ever invokes the effect body again. -/
theorem dispose_halts_future_runs (cid : Nat) (st : EngState)
    (hwf : ∀ j, Subscriber.comp cid ∈ (st.sigs j).subs → j ∈ st.deps cid)
    (hstk : cid ∉ st.stack) :
    (∀ j, Subscriber.comp cid ∉ ((disposeEffect cid st).sigs j).subs) ∧
    (disposeEffect cid st).deps cid = [] ∧
    (∀ c f, st.comps cid = some c → c.cleanup = some f →
      (disposeEffect cid st).events = Event.cleanupCall f :: st.events) ∧
    (∀ ops, runCount cid (applyOps ops (disposeEffect cid st)) =
      runCount cid (disposeEffect cid st)) := by
  have hsg := (runCleanup_rest cid (unsubscribeAll cid st)).1
  have hsubs : ∀ j, Subscriber.comp cid ∉ ((disposeEffect cid st).sigs j).subs := by
    intro j
    show Subscriber.comp cid ∉ ((runCleanup cid (unsubscribeAll cid st)).sigs j).subs
    rw [hsg]
    exact unsubscribeAll_clean cid st hwf j
  refine ⟨hsubs, ?_, ?_, ?_⟩
  · show (runCleanup cid (unsubscribeAll cid st)).deps cid = []
    rw [congrFun (runCleanup_rest cid (unsubscribeAll cid st)).2.1 cid,
      unsubscribeAll_deps]
    rw [if_pos rfl]
  · intro c f hc hf
    have hc2 : (unsubscribeAll cid st).comps cid = some c := by
      rw [(unsubscribeAll_rest cid st).2.1]
      exact hc
    show (runCleanup cid (unsubscribeAll cid st)).events = _
    simp [runCleanup, hc2, hf, (unsubscribeAll_rest cid st).1]
  · intro ops
    have hu : Untouched cid (disposeEffect cid st) := by
      refine ⟨hsubs, ?_⟩
      show cid ∉ (runCleanup cid (unsubscribeAll cid st)).stack
      rw [(runCleanup_rest cid (unsubscribeAll cid st)).2.2.1,
        (unsubscribeAll_rest cid st).2.2.1]
      exact hstk
    exact (applyOps_untouched cid ops (disposeEffect cid st) hu).2

/-- C5 witness: disposing the concrete registered effect and then
writing its former dependency signal twice never runs its body. -/
theorem dispose_halts_future_runs_witness :
    (∀ j, Subscriber.comp 0 ∉ ((disposeEffect 0 oneEffectSt).sigs j).subs) ∧
    (disposeEffect 0 oneEffectSt).deps 0 = [] ∧
    (∀ c f, oneEffectSt.comps 0 = some c → c.cleanup = some f →
      (disposeEffect 0 oneEffectSt).events = Event.cleanupCall f :: oneEffectSt.events) ∧
    (∀ ops, runCount 0 (applyOps ops (disposeEffect 0 oneEffectSt)) =
      runCount 0 (disposeEffect 0 oneEffectSt)) := by
  apply dispose_halts_future_runs 0 oneEffectSt
  · intro j hj
    by_cases hjj : j = SigKey.plain 0
    · subst hjj
      show SigKey.plain 0 ∈ (if (0 : Nat) = 0 then [SigKey.plain 0] else [])
      rw [if_pos rfl]
      exact List.mem_singleton.2 rfl
    · exfalso
      have : (oneEffectSt.sigs j).subs = [] := by
        show ((if j = SigKey.plain 0
          then ({ value := JSVal.num 0, subs := [Subscriber.comp 0] } : Sig)
          else {}) : Sig).subs = []
        rw [if_neg hjj]
      rw [this] at hj
      exact List.not_mem_nil _ hj
  · show (0 : Nat) ∉ ([] : List Nat)
    exact List.not_mem_nil 0

/-- C6: `createEffect(fn)` invokes `fn` exactly once, synchronously,
before returning, and writes no signal value while doing so; and in the
concrete scenario — a signal initialized to `0` with an effect pushing
`get()` into `seen`, then `set(1); set(2)` — each write re-runs the
body exactly once, leaving `seen = [0, 1, 2]` and three invocations in
total. -/
theorem effect_runs_once_at_creation :
    (∀ (b : Body) (st : EngState) (cid : Nat) (st1 : EngState),
      createEffect (CreateArg.func b) st = Except.ok (cid, st1) →
        runCount cid st1 = runCount cid st + 1 ∧
        (∀ n, (st1.sigs (SigKey.plain n)).value = (st.sigs (SigKey.plain n)).value)) ∧
    seenOf effSt3 = [JSVal.num 0, JSVal.num 1, JSVal.num 2] ∧
    runCount 0 effSt3 = 3 := by
  refine ⟨?_, by decide, by decide⟩
  intro b st cid st1 h
  have h2 : (Except.ok (st.nextComp,
      runComp st.nextComp
        { st with nextComp := st.nextComp + 1,
                  comps := Function.update st.comps st.nextComp
                    (some { body := b, kind := CompKind.effect }) }) :
      Except String (Nat × EngState)) = Except.ok (cid, st1) := h
  have h3 := Except.ok.inj h2
  have hcid : st.nextComp = cid := congrArg Prod.fst h3
  have hst1 : runComp st.nextComp
      { st with nextComp := st.nextComp + 1,
                comps := Function.update st.comps st.nextComp
                  (some { body := b, kind := CompKind.effect }) } = st1 :=
    congrArg Prod.snd h3
  rw [← hst1, ← hcid]
  constructor
  · rw [runComp_runs st.nextComp _ { body := b, kind := CompKind.effect }
      (Function.update_same st.nextComp _ st.comps)]
    rfl
  · intro n
    exact ((runComp_pres st.nextComp _).1).2.2.2.1 n

/-- C6 witness: the general statement applied to the concrete
`createSignal(0)` state and the `seen.push(get())` body. -/
theorem effect_runs_once_at_creation_witness :
    runCount 0 effSt1 = runCount 0 effSt0 + 1 ∧
    (∀ n, (effSt1.sigs (SigKey.plain n)).value = (effSt0.sigs (SigKey.plain n)).value) :=
  effect_runs_once_at_creation.1 effSeenBody effSt0 0 effSt1 rfl

/-- C7: writing property `prop` of a `$state` object to a
non-reference-equal value assigns it into the backing record and then
notifies only the subscribers of `prop`'s PropertySignal — a
computation not subscribed to it is not re-run — plus every global
listener, each exactly once per registration, with
`(key, oldValue, newValue)`; concretely, an effect that only reads
property `b` is not re-run by a write to `a` but is by a write to `b`,
and `$state({count: 0})` with a global listener delivers
`('count', 0, 1)` exactly once on `state.count = 1`. -/
theorem state_write_isolation (oid : Nat) (prop : String) (v : JSVal)
    (st : EngState) (so : StateObj)
    (hso : st.states oid = some so)
    (hchg : alGet so.backing prop ≠ v) :
    ((stateSet oid prop v st).states oid).map StateObj.backing =
      some (alSet so.backing prop v) ∧
    (∀ g, ((stateSet oid prop v st).events).count
        (Event.globalCall g prop (alGet so.backing prop) v) =
      st.events.count (Event.globalCall g prop (alGet so.backing prop) v) +
        so.globalSubs.count g) ∧
    (∀ c0, Subscriber.comp c0 ∉ (st.sigs (SigKey.propSig oid prop)).subs →
      runCount c0 (stateSet oid prop v st) = runCount c0 st) ∧
    runCount 0 (stateSet 0 "a" (JSVal.num 9) isoSt1) = runCount 0 isoSt1 ∧
    runCount 0 (stateSet 0 "b" (JSVal.num 9) isoSt1) = runCount 0 isoSt1 + 1 ∧
    (stateSet 0 "count" (JSVal.num 1) cntSt).events.count
      (Event.globalCall 5 "count" (JSVal.num 0) (JSVal.num 1)) = 1 := by
  have key :
      ((stateSet oid prop v st).states oid).map StateObj.backing =
        some (alSet so.backing prop v) ∧
      (∀ g, ((stateSet oid prop v st).events).count
          (Event.globalCall g prop (alGet so.backing prop) v) =
        st.events.count (Event.globalCall g prop (alGet so.backing prop) v) +
          so.globalSubs.count g) ∧
      (∀ c0, Subscriber.comp c0 ∉ (st.sigs (SigKey.propSig oid prop)).subs →
        runCount c0 (stateSet oid prop v st) = runCount c0 st) := by
    simp only [stateSet, hso]
    rw [if_neg hchg]
    set so2 : StateObj := { so with backing := alSet so.backing prop v } with hso2
    set st1 : EngState :=
      { st with states := Function.update st.states oid (some so2) } with hst1
    have hst1so : st1.states oid = some so2 := Function.update_same oid _ st.states
    split_ifs with hps
    · obtain ⟨np, ng, nx, nr, nt, nd, nw, nq⟩ := notifySubs_pres
        ((st1.sigs (SigKey.propSig oid prop)).subs) st1
      set st2 := notifySubs ((st1.sigs (SigKey.propSig oid prop)).subs) st1 with hst2
      have hbk2 : (st2.states oid).map StateObj.backing = some so2.backing := by
        rw [hst2, np.2.2.2.2.2.1 oid, hst1so]
        rfl
      have hgs2 : (st2.states oid).map StateObj.globalSubs = some so.globalSubs := by
        rw [hst2, np.2.2.2.2.2.2 oid, hst1so]
        rfl
      obtain ⟨soX, hsoX, hgsX⟩ :
          ∃ soX, st2.states oid = some soX ∧ soX.globalSubs = so.globalSubs := by
        cases hx : st2.states oid with
        | none => rw [hx] at hgs2; exact absurd hgs2 (by simp)
        | some soX =>
            rw [hx] at hgs2
            exact ⟨soX, rfl, Option.some.inj hgs2⟩
      refine ⟨?_, ?_, ?_⟩
      · rw [(notifyGlobal_rest oid prop (alGet so.backing prop) v st2).2.2.2.2.1]
        rw [hbk2]
      · intro g
        rw [notifyGlobal_count oid prop (alGet so.backing prop) v st2 soX hsoX g,
          hgsX, ng g prop (alGet so.backing prop) v]
      · intro c0 hnm
        have hnm1 : Subscriber.comp c0 ∉ (st1.sigs (SigKey.propSig oid prop)).subs := hnm
        unfold runCount
        rw [notifyGlobal_count_other _ _ _ _ _ _ (by simp)]
        have := nr c0 hnm1
        unfold runCount at this
        rw [this]
    · refine ⟨?_, ?_, ?_⟩
      · rw [(notifyGlobal_rest oid prop (alGet so.backing prop) v st1).2.2.2.2.1]
        rw [hst1so]
        rfl
      · intro g
        rw [notifyGlobal_count oid prop (alGet so.backing prop) v st1 so2 hst1so g]
      · intro c0 _
        unfold runCount
        rw [notifyGlobal_count_other _ _ _ _ _ _ (by simp)]
  exact ⟨key.1, key.2.1, key.2.2, by decide, by decide, by decide⟩

/-- C7 witness: the general statement applied to the concrete
`$state({count: 0})` object with global listener 5 and the write
`state.count = 1`. -/
theorem state_write_isolation_witness :
    ((stateSet 0 "count" (JSVal.num 1) cntSt).states 0).map StateObj.backing =
      some (alSet [("count", JSVal.num 0)] "count" (JSVal.num 1)) ∧
    (∀ g, ((stateSet 0 "count" (JSVal.num 1) cntSt).events).count
        (Event.globalCall g "count" (alGet [("count", JSVal.num 0)] "count") (JSVal.num 1)) =
      cntSt.events.count
        (Event.globalCall g "count" (alGet [("count", JSVal.num 0)] "count") (JSVal.num 1)) +
        List.count g [5]) ∧
    (∀ c0, Subscriber.comp c0 ∉ (cntSt.sigs (SigKey.propSig 0 "count")).subs →
      runCount c0 (stateSet 0 "count" (JSVal.num 1) cntSt) = runCount c0 cntSt) ∧
    runCount 0 (stateSet 0 "a" (JSVal.num 9) isoSt1) = runCount 0 isoSt1 ∧
    runCount 0 (stateSet 0 "b" (JSVal.num 9) isoSt1) = runCount 0 isoSt1 + 1 ∧
    (stateSet 0 "count" (JSVal.num 1) cntSt).events.count
      (Event.globalCall 5 "count" (JSVal.num 0) (JSVal.num 1)) = 1 :=
  state_write_isolation 0 "count" (JSVal.num 1) cntSt
    { backing := [("count", JSVal.num 0)], globalSubs := [5] }
    (by decide) (by decide)

/-- C1: before each re-run the computation is removed from the
subscriber set of every signal recorded from its previous run, and
after the run it is subscribed to exactly the signals actually read
during the new run (its registry entry listing exactly those reads);
concretely, for an effect reading signal 1 only while signal 0 is
`true`, toggling signal 0 re-points the dependencies from `{0, 1}` to
`{0, 2}` so that a later write to signal 1 does not re-run the effect
while a write to signal 2 does. -/
theorem effect_subscriptions_track_reads (cid : Nat) (st : EngState) (c : Comp)
    (hc : st.comps cid = some c)
    (hwf : ∀ j, Subscriber.comp cid ∈ (st.sigs j).subs → j ∈ st.deps cid) :
    (∀ j, Subscriber.comp cid ∉ ((unsubscribeAll cid st).sigs j).subs) ∧
    (∀ j, Subscriber.comp cid ∈ ((runComp cid st).sigs j).subs ↔
      j ∈ (runCompAux cid st).1) ∧
    (∀ j, j ∈ (runComp cid st).deps cid ↔ j ∈ (runCompAux cid st).1) ∧
    condSt1.deps 0 = [SigKey.plain 0, SigKey.plain 1] ∧
    condSt2.deps 0 = [SigKey.plain 0, SigKey.plain 2] ∧
    runCount 0 condSt2 = 2 ∧
    runCount 0 (setSignal 1 (JSVal.num 11) condSt2).2 = 2 ∧
    runCount 0 (setSignal 2 (JSVal.num 21) condSt2).2 = 3 := by
  have hclean := unsubscribeAll_clean cid st hwf
  have hdeps0 : (preBody cid st).deps cid = [] := by
    show (runCleanup cid (unsubscribeAll cid st)).deps cid = []
    rw [congrFun (runCleanup_rest cid (unsubscribeAll cid st)).2.1 cid,
      unsubscribeAll_deps, if_pos rfl]
  have hinv3 : TrackInv cid (preBody cid st) := by
    constructor
    · intro k
      constructor
      · intro hm
        exfalso
        have hm2 : Subscriber.comp cid ∈
            ((runCleanup cid (unsubscribeAll cid st)).sigs k).subs := hm
        rw [(runCleanup_rest cid (unsubscribeAll cid st)).1] at hm2
        exact hclean k hm2
      · intro hd
        rw [hdeps0] at hd
        exact absurd hd (List.not_mem_nil _)
    · intro oid p hp
      rw [hdeps0] at hp
      exact absurd hp (List.not_mem_nil _)
  obtain ⟨iinv, ideps⟩ := interp_track cid c.body (preBody cid st) rfl hinv3
  obtain ⟨hsg, hdp⟩ := runComp_parts cid st c hc
  have hfst := runCompAux_fst cid st c hc
  refine ⟨hclean, ?_, ?_, by decide, by decide, by decide, by decide, by decide⟩
  · intro j
    rw [hsg, hfst, iinv.1 j, ideps j, hdeps0]
    simp
  · intro j
    rw [hdp, hfst, ideps j, hdeps0]
    simp

/-- C1 witness: the general statement applied to the concrete
registered effect `oneEffectSt`. -/
theorem effect_subscriptions_track_reads_witness :
    (∀ j, Subscriber.comp 0 ∉ ((unsubscribeAll 0 oneEffectSt).sigs j).subs) ∧
    (∀ j, Subscriber.comp 0 ∈ ((runComp 0 oneEffectSt).sigs j).subs ↔
      j ∈ (runCompAux 0 oneEffectSt).1) ∧
    (∀ j, j ∈ (runComp 0 oneEffectSt).deps 0 ↔ j ∈ (runCompAux 0 oneEffectSt).1) ∧
    condSt1.deps 0 = [SigKey.plain 0, SigKey.plain 1] ∧
    condSt2.deps 0 = [SigKey.plain 0, SigKey.plain 2] ∧
    runCount 0 condSt2 = 2 ∧
    runCount 0 (setSignal 1 (JSVal.num 11) condSt2).2 = 2 ∧
    runCount 0 (setSignal 2 (JSVal.num 21) condSt2).2 = 3 := by
  apply effect_subscriptions_track_reads 0 oneEffectSt
    { body := effSeenBody, kind := CompKind.effect, cleanup := some 7 }
    (by
      show Function.update (fun _ => (none : Option Comp)) 0
          (some { body := effSeenBody, kind := CompKind.effect, cleanup := some 7 }) 0 =
        some { body := effSeenBody, kind := CompKind.effect, cleanup := some 7 }
      rw [Function.update_same])
  intro j hj
  by_cases hjj : j = SigKey.plain 0
  · subst hjj
    show SigKey.plain 0 ∈ (if (0 : Nat) = 0 then [SigKey.plain 0] else [])
    rw [if_pos rfl]
    exact List.mem_singleton.2 rfl
  · exfalso
    have hempty : (oneEffectSt.sigs j).subs = [] := by
      show ((if j = SigKey.plain 0
        then ({ value := JSVal.num 0, subs := [Subscriber.comp 0] } : Sig)
        else {}) : Sig).subs = []
      rw [if_neg hjj]
    rw [hempty] at hj
    exact List.not_mem_nil _ hj
end Reactive
